import Mathlib

/-!
Verification development for the download job scheduler and the file-ingestion
pipeline of the music-library backend.

Part 1 embeds `app/queue_manager.py` (class `DownloadQueueManager`): an
in-memory FIFO queue of download jobs with a bounded set of concurrently
processing jobs, per-user bounded histories of completed and failed jobs,
and a registry (`self.jobs`) used by `get_job`.

Part 2 embeds `_execute_spotify_download_logic` from
`app/routers/downloads.py`: the external-downloader invocation (spotdl
subprocess with timeout), and the per-file ingestion loop with its
duplicate check, quota check, filename sanitization, track persistence,
tag/playlist attachment, per-file commit and rollback-on-error.

Modelling conventions:
- Job ids are consecutive naturals standing for the strictly increasing
  `{user_id}_{millisecond_timestamp}` identifiers (collisions within one
  millisecond are not modelled).
- `datetime` timestamps are not modelled (no claim depends on them).
- The SQLAlchemy session is modelled as a pair of database snapshots
  `committed`/`pending`: `db.add` and ORM attribute writes touch `pending`,
  `db.commit()` copies `pending` into `committed`, `db.rollback()` restores
  `pending` from `committed` (flushed-but-uncommitted rows are discarded).
- File sizes in MB are naturals; catalog rows (artist/album), cover art and
  lyrics side effects carry no claim and are omitted.
-/

/-- Status enum of `DownloadStatus` in `queue_manager.py`. -/
inductive DStatus
  | queued
  | processing
  | completed
  | failed
deriving DecidableEq

/-- A download job (`DownloadJob` dataclass); the id is kept as the key of
the `jobs` association list. -/
structure DJob where
  userId : Nat
  status : DStatus
  position : Option Nat
  message : String
  error : Option String
  result : Option Nat
deriving DecidableEq

/-- State of `DownloadQueueManager`: queue and processing hold job ids,
`jobs` is the id-indexed registry (the Python dict of shared job objects),
`completed`/`failed` map a user id to that user's history (oldest first). -/
structure QState where
  maxConcurrent : Nat
  nextId : Nat
  queue : List Nat
  processing : List Nat
  completed : List (Nat × List Nat)
  failed : List (Nat × List Nat)
  jobs : List (Nat × DJob)
  totalCompleted : Nat
  totalFailed : Nat
deriving DecidableEq

/-- Dictionary read `self.jobs.get(job_id)`. -/
def lookupJob : List (Nat × DJob) → Nat → Option DJob
  | [], _ => none
  | (k, j) :: rest, id => if k = id then some j else lookupJob rest id

/-- In-place mutation of the job object stored under `id` (the Python jobs
are shared references, so a mutation is visible through every container). -/
def updateJob : List (Nat × DJob) → Nat → (DJob → DJob) → List (Nat × DJob)
  | [], _, _ => []
  | (k, j) :: rest, id, f =>
    if k = id then (k, f j) :: updateJob rest id f else (k, j) :: updateJob rest id f

/-- Dictionary removal `self.jobs.pop(id, None)`. -/
def removeJob (l : List (Nat × DJob)) (id : Nat) : List (Nat × DJob) :=
  l.filter (fun p => p.1 ≠ id)

/-- Read of a per-user history list, empty when the user has no entry yet. -/
def histGet : List (Nat × List Nat) → Nat → List Nat
  | [], _ => []
  | (k, l) :: rest, u => if k = u then l else histGet rest u

/-- Write of a per-user history list (dict item assignment). -/
def histSet : List (Nat × List Nat) → Nat → List Nat → List (Nat × List Nat)
  | [], u, l => [(u, l)]
  | (k, l0) :: rest, u, l =>
    if k = u then (k, l) :: rest else (k, l0) :: histSet rest u l

/-- The mutation `_update_positions` applies to the i-th queued job
(`job.position = i + 1; job.message = f"Position {i+1} in queue"`). -/
def posUpdate (n : Nat) (j : DJob) : DJob :=
  { j with position := some n, message := "Position " ++ toString n ++ " in queue" }

/-- `_update_positions`: walk the queue, numbering jobs from 1. -/
def setPositions (jobs : List (Nat × DJob)) : List Nat → Nat → List (Nat × DJob)
  | [], _ => jobs
  | id :: rest, n => setPositions (updateJob jobs id (posUpdate n)) rest (n + 1)

/-- The mutation `_process_queue` applies to a dispatched job
(status PROCESSING, position cleared, message "Downloading..."). -/
def procUpdate (j : DJob) : DJob :=
  { j with status := DStatus.processing, position := none, message := "Downloading..." }

/-- One iteration of the `_process_queue` loop body: pop the head of the
queue, mark it PROCESSING, append it to the processing dict, renumber the
remaining queued jobs. -/
def dispatchHead (s : QState) (id : Nat) (rest : List Nat) : QState :=
  let s1 : QState := { s with
    queue := rest,
    jobs := updateJob s.jobs id procUpdate,
    processing := s.processing ++ [id] }
  { s1 with jobs := setPositions s1.jobs rest 1 }

/-- The `_process_queue` loop, recursing on the queue (each iteration pops
the head, so the queue of the state always equals the list argument). -/
def processQueueGo : List Nat → QState → QState
  | [], s => s
  | id :: rest, s =>
    if s.processing.length < s.maxConcurrent then
      processQueueGo rest (dispatchHead s id rest)
    else s

/-- `_process_queue`: while a slot is free and the queue is non-empty,
dispatch the head. -/
def processQueue (s : QState) : QState :=
  processQueueGo s.queue s

/-- The freshly admitted job record (`DownloadJob(...)` in `add_job`). -/
def newJobRecord (u : Nat) : DJob :=
  { userId := u, status := DStatus.queued, position := none,
    message := "Added to queue", error := none, result := none }

/-- `add_job`: register a fresh job at the tail of the queue, renumber
positions, then run `_process_queue` (the task spawned by
`asyncio.create_task`; the common prompt schedule is modelled by running it
immediately, and `QOp.proc` below also allows it at any later point). -/
def addJob (s : QState) (u : Nat) : QState :=
  processQueue
    { s with
      nextId := s.nextId + 1,
      queue := s.queue ++ [s.nextId],
      jobs := setPositions (s.jobs ++ [(s.nextId, newJobRecord u)])
        (s.queue ++ [s.nextId]) 1 }

/-- `mark_job_completed`: early-return when the id is not processing;
otherwise pop it from processing, stamp the job, append it to the owner's
completed history (the Python code first ensures the key exists, appends,
then pops the oldest entry when the list exceeds 10 and drops that entry
from the jobs registry), bump the counter, and run `_process_queue`. -/
def completedStamp (res : Nat) (jj : DJob) : DJob :=
  { jj with status := DStatus.completed,
            message := "Download completed successfully",
            result := some res }

def markCompleted (s : QState) (id : Nat) (res : Nat) : QState :=
  if id ∈ s.processing then
    match lookupJob s.jobs id with
    | none => s
    | some j =>
      if 10 < (histGet s.completed j.userId ++ [id]).length then
        processQueue
          { s with
            processing := s.processing.erase id,
            jobs := removeJob (updateJob s.jobs id (completedStamp res))
              ((histGet s.completed j.userId ++ [id]).headD 0),
            completed := histSet s.completed j.userId
              ((histGet s.completed j.userId ++ [id]).drop 1),
            totalCompleted := s.totalCompleted + 1 }
      else
        processQueue
          { s with
            processing := s.processing.erase id,
            jobs := updateJob s.jobs id (completedStamp res),
            completed := histSet s.completed j.userId
              (histGet s.completed j.userId ++ [id]),
            totalCompleted := s.totalCompleted + 1 }
  else s

/-- `mark_job_failed`: mirror image of `mark_job_completed` for the failed
bucket. -/
def failedStamp (err : String) (jj : DJob) : DJob :=
  { jj with status := DStatus.failed,
            message := "Download failed",
            error := some err }

def markFailed (s : QState) (id : Nat) (err : String) : QState :=
  if id ∈ s.processing then
    match lookupJob s.jobs id with
    | none => s
    | some j =>
      if 10 < (histGet s.failed j.userId ++ [id]).length then
        processQueue
          { s with
            processing := s.processing.erase id,
            jobs := removeJob (updateJob s.jobs id (failedStamp err))
              ((histGet s.failed j.userId ++ [id]).headD 0),
            failed := histSet s.failed j.userId
              ((histGet s.failed j.userId ++ [id]).drop 1),
            totalFailed := s.totalFailed + 1 }
      else
        processQueue
          { s with
            processing := s.processing.erase id,
            jobs := updateJob s.jobs id (failedStamp err),
            failed := histSet s.failed j.userId
              (histGet s.failed j.userId ++ [id]),
            totalFailed := s.totalFailed + 1 }
  else s

/-- `get_job`. -/
def getJob (s : QState) (id : Nat) : Option DJob :=
  lookupJob s.jobs id

/-- The scheduler operations an environment can invoke: submission, a run of
the background `_process_queue` task, completion, failure. -/
inductive QOp
  | add (u : Nat)
  | proc
  | complete (id : Nat) (res : Nat)
  | fail (id : Nat) (err : String)

/-- Apply one operation. -/
def applyOp (s : QState) : QOp → QState
  | QOp.add u => addJob s u
  | QOp.proc => processQueue s
  | QOp.complete id res => markCompleted s id res
  | QOp.fail id err => markFailed s id err

/-- Fresh manager state with concurrency limit `c`
(`max_concurrent_downloads`). -/
def initQState (c : Nat) : QState :=
  { maxConcurrent := c, nextId := 0, queue := [], processing := [],
    completed := [], failed := [], jobs := [], totalCompleted := 0,
    totalFailed := 0 }

/-- Run a sequence of operations from the fresh state. -/
def runOps (c : Nat) (ops : List QOp) : QState :=
  ops.foldl applyOp (initQState c)

/-- `max_concurrent_downloads: int = 3` in `app/config.py`. -/
def maxConcurrentDownloadsDefault : Nat := 3

/-! ## Part 2: the Spotify/YouTube ingestion pipeline -/

/-- Where (if anywhere) the processing of one file raises an exception that
reaches the per-file `except` handler: `exnEarly` models an exception while
hashing/reading the file, before the duplicate check; `exnPersist` models an
exception after the file was renamed into permanent storage and the Track
row was added and flushed (e.g. a failure inside
`link_track_to_album_and_artists`), before tag application. -/
inductive FailPoint
  | none
  | exnEarly
  | exnPersist
deriving DecidableEq

/-- One audio file materialized by the downloader, as the loop observes it:
content hash, embedded title, size in MB, whether `MutagenFile` could read
it, and the exception behaviour of its processing. -/
structure FileInfo where
  hash : String
  title : String
  sizeMb : Nat
  metadataOk : Bool
  failAt : FailPoint
deriving DecidableEq

/-- A persisted `Track` row (the fields the pipeline writes). -/
structure TrackRow where
  id : Nat
  songHash : String
  title : String
  audioPath : String
  sizeMb : Nat
  uploadedById : Nat
deriving DecidableEq

/-- A `PlaylistSong` row. -/
structure PlaylistSongRow where
  playlistId : Nat
  trackId : Nat
  position : Nat
  addedById : Nat
deriving DecidableEq

/-- The database tables the pipeline touches, plus the owner's storage
ledger `user.storage_used_mb`. Personal tags are `(user, track, tag)`
triples, global tags `(track, global_tag, applied_by)` triples. -/
structure DB where
  tracks : List TrackRow
  songTags : List (Nat × Nat × Nat)
  globalSongTags : List (Nat × Nat × Nat)
  playlistSongs : List PlaylistSongRow
  likedSongs : List (Nat × Nat)
  playlists : List Nat
  storageUsed : Nat
deriving DecidableEq

/-- The in-flight state of one run of `_execute_spotify_download_logic`:
the session (`committed`/`pending`), the scratch directory contents, the
permanent music directory entries created by this run, and the loop's local
accumulators (`processed_tracks`, `skipped_tracks`, `position`). -/
structure PState where
  committed : DB
  pending : DB
  tempFiles : List FileInfo
  musicFiles : List String
  processedIds : List Nat
  skipped : List (String × Nat)
  pos : Nat
  nextTrackId : Nat
deriving DecidableEq

/-- `db.commit()`. -/
def dbCommit (S : PState) : PState := { S with committed := S.pending }

/-- `db.rollback()`: uncommitted inserts and attribute writes are discarded. -/
def dbRollback (S : PState) : PState := { S with pending := S.committed }

/-- `db.query(Track).filter(Track.song_hash == file_hash).first()`; with
autoflush the query sees rows added earlier in the same session. -/
def findTrackByHash (d : DB) (h : String) : Option TrackRow :=
  d.tracks.find? (fun t => t.songHash == h)

/-- `apply_tag_to_track`: `valid` stands for "a Tag row with this id owned
by this user exists"; when valid and the (user, track, tag) association is
absent, it is added and the session is committed, otherwise nothing
happens. -/
def applyTagToTrack (valid : Bool) (S : PState) (userId trackId tagId : Nat) : PState :=
  if valid then
    if S.pending.songTags.any
        (fun p => p.1 == userId && p.2.1 == trackId && p.2.2 == tagId) then S
    else
      dbCommit { S with pending :=
        { S.pending with songTags := S.pending.songTags ++ [(userId, trackId, tagId)] } }
  else S

/-- `apply_global_tag_to_track`: `valid` stands for "a GlobalTag row with
this id exists"; the duplicate check is on (track, global_tag) only. -/
def applyGlobalTagToTrack (valid : Bool) (S : PState) (userId trackId gId : Nat) : PState :=
  if valid then
    if S.pending.globalSongTags.any
        (fun p => p.1 == trackId && p.2.1 == gId) then S
    else
      dbCommit { S with pending :=
        { S.pending with globalSongTags := S.pending.globalSongTags ++ [(trackId, gId, userId)] } }
  else S

/-- Characters stripped by `re.sub(r'[<>:"/\\|?*]', '', title)`. -/
def illegalFilenameChars : List Char := ['<', '>', ':', '\"', '/', '\\', '|', '?', '*']

/-- Python `str.strip('. ')` on a character list. -/
def trimDotSpace (cs : List Char) : List Char :=
  ((cs.dropWhile (fun c => c == '.' || c == ' ')).reverse.dropWhile
    (fun c => c == '.' || c == ' ')).reverse

/-- The sanitized title: illegal filename characters removed, then leading
and trailing dots and spaces stripped. -/
def sanitizeTitle (t : String) : String :=
  String.mk (trimDotSpace (t.toList.filter (fun c => !(illegalFilenameChars.contains c))))

/-- `file_hash[:12]`. -/
def strTake (n : Nat) (s : String) : String := String.mk (s.toList.take n)

/-- `final_filename = f"{file_hash[:12]}_{sanitized_title}.mp3"`. -/
def finalFilename (hsh title : String) : String :=
  strTake 12 hsh ++ "_" ++ sanitizeTitle title ++ ".mp3"

/-- Directory of permanent content-addressed storage. -/
def musicDir : String := "uploads/music/"

/-- Static facts of one run: URL classification, requested tags and whether
their rows exist, the owner, the quota, the adapter outcome and the set of
materialized files, the initial database, and the ids handed out to the
playlist created by this run and to new tracks. -/
structure RunCfg where
  isPlaylist : Bool
  isAlbum : Bool
  isTrack : Bool
  tagId : Option Nat
  tagValid : Bool
  globalTagId : Option Nat
  globalTagValid : Bool
  userId : Nat
  quotaMb : Nat
  timedOut : Bool
  exitCode : Nat
  files : List FileInfo
  initDb : DB
  playlistId : Nat
  firstTrackId : Nat
deriving DecidableEq

/-- The two `if tag_id: ... if global_tag_id: ...` blocks. -/
def tagSteps (cfg : RunCfg) (S : PState) (trackId : Nat) : PState :=
  let S1 := match cfg.tagId with
    | some g => applyTagToTrack cfg.tagValid S cfg.userId trackId g
    | Option.none => S
  match cfg.globalTagId with
  | some g => applyGlobalTagToTrack cfg.globalTagValid S1 cfg.userId trackId g
  | Option.none => S1

/-- The body of `for mp3_file in mp3_files` (lines 182-344 of
`downloads.py`), for one file `f`; `pl` is the playlist created for this
run if any. Unreadable metadata and a quota overflow both `continue` with
no other effect; the duplicate branch records the skip, applies tags,
appends a pending playlist row and advances `position`; the persist branch
renames the file, adds and flushes the Track row, updates the ledger,
applies tags, playlist and auto-like rows, records the processed track and
commits; an exception at either modelled point rolls the session back and
continues. -/
def processFile (cfg : RunCfg) (pl : Option Nat) (S : PState) (f : FileInfo) : PState :=
  if !f.metadataOk then S
  else if f.failAt = FailPoint.exnEarly then dbRollback S
  else
    match findTrackByHash S.pending f.hash with
    | some t =>
      let S1 : PState := { S with skipped := S.skipped ++ [(f.title, t.id)] }
      let S2 := tagSteps cfg S1 t.id
      let S3 : PState := match pl with
        | some pid => { S2 with pending :=
            { S2.pending with playlistSongs :=
                S2.pending.playlistSongs ++ [⟨pid, t.id, S2.pos, cfg.userId⟩] } }
        | Option.none => S2
      { S3 with pos := S3.pos + 1 }
    | Option.none =>
      if cfg.quotaMb < S.pending.storageUsed + f.sizeMb then S
      else
        let fname := musicDir ++ finalFilename f.hash f.title
        let S1 : PState := { S with
          tempFiles := S.tempFiles.erase f,
          musicFiles := S.musicFiles ++ [fname] }
        let trk : TrackRow :=
          ⟨S1.nextTrackId, f.hash, f.title, fname, f.sizeMb, cfg.userId⟩
        let S2 : PState := { S1 with
          pending := { S1.pending with tracks := S1.pending.tracks ++ [trk] },
          nextTrackId := S1.nextTrackId + 1 }
        if f.failAt = FailPoint.exnPersist then dbRollback S2
        else
          let S3 : PState := { S2 with
            pending := { S2.pending with storageUsed := S2.pending.storageUsed + f.sizeMb } }
          let S4 := tagSteps cfg S3 trk.id
          let S5 : PState := match pl with
            | some pid => { S4 with pending :=
                { S4.pending with playlistSongs :=
                    S4.pending.playlistSongs ++ [⟨pid, trk.id, S4.pos, cfg.userId⟩] } }
            | Option.none => S4
          let S6 : PState :=
            if cfg.isTrack then
              { S5 with pending :=
                  { S5.pending with likedSongs := S5.pending.likedSongs ++ [(cfg.userId, trk.id)] } }
            else S5
          dbCommit { S6 with
            processedIds := S6.processedIds ++ [trk.id],
            pos := S6.pos + 1 }

/-- Typed failures of the downloader invocation and of the up-front quota
check. -/
inductive DlError
  | quotaAtStart
  | timeout
  | spotdlFailed
  | noFiles
deriving DecidableEq

/-- The external downloader adapter: the spotdl subprocess with
`timeout=300` (a timeout raises), the `returncode != 0` check, and the
`if not mp3_files` check on the files the glob finds. -/
def runSpotdl (timedOut : Bool) (exitCode : Nat) (files : List FileInfo) :
    Except DlError (List FileInfo) :=
  if timedOut then Except.error DlError.timeout
  else if exitCode ≠ 0 then Except.error DlError.spotdlFailed
  else if files = [] then Except.error DlError.noFiles
  else Except.ok files

/-- The value returned on success (`"processed"`, `"skipped"`, `"tracks"`,
`"skipped_tracks"`, `"playlist"`, `"auto_liked"`). -/
structure RunResult where
  processed : Nat
  skippedCount : Nat
  trackIds : List Nat
  skippedList : List (String × Nat)
  playlist : Option (Nat × Nat)
  autoLiked : Bool
deriving DecidableEq

instance {ε α : Type} [DecidableEq ε] [DecidableEq α] : DecidableEq (Except ε α) :=
  fun a b =>
    match a, b with
    | Except.error x, Except.error y =>
      if h : x = y then Decidable.isTrue (by rw [h])
      else Decidable.isFalse (by intro hh; injection hh; exact h (by assumption))
    | Except.ok x, Except.ok y =>
      if h : x = y then Decidable.isTrue (by rw [h])
      else Decidable.isFalse (by intro hh; injection hh; exact h (by assumption))
    | Except.error _, Except.ok _ => Decidable.isFalse (by intro hh; cases hh)
    | Except.ok _, Except.error _ => Decidable.isFalse (by intro hh; cases hh)

/-- Everything observable when the coroutine returns or raises: its result
or error, the committed database, the scratch directory contents and the
permanent files created by the run. -/
structure RunOutcome where
  result : Except DlError RunResult
  db : DB
  tempFiles : List FileInfo
  musicFiles : List String
deriving DecidableEq

/-- Loop state before the first file. -/
def initPState (cfg : RunCfg) (files : List FileInfo) : PState :=
  { committed := cfg.initDb, pending := cfg.initDb, tempFiles := files,
    musicFiles := [], processedIds := [], skipped := [], pos := 1,
    nextTrackId := cfg.firstTrackId }

/-- `_execute_spotify_download_logic`: up-front quota check (raises
"Storage quota exceeded" when usage already meets the quota), downloader
invocation with scratch-directory cleanup on both paths, playlist creation
(committed at once) for playlist URLs, the per-file loop, the final commit
and the final `shutil.rmtree` of the scratch directory. -/
def spotifyRun (cfg : RunCfg) : RunOutcome :=
  if cfg.quotaMb ≤ cfg.initDb.storageUsed then
    ⟨Except.error DlError.quotaAtStart, cfg.initDb, [], []⟩
  else
    match runSpotdl cfg.timedOut cfg.exitCode cfg.files with
    | Except.error e => ⟨Except.error e, cfg.initDb, [], []⟩
    | Except.ok files =>
      let S0 := initPState cfg files
      let pl : Option Nat := if cfg.isPlaylist then some cfg.playlistId else none
      let S1 :=
        if cfg.isPlaylist then
          dbCommit { S0 with pending :=
            { S0.pending with playlists := S0.pending.playlists ++ [cfg.playlistId] } }
        else S0
      let S2 := files.foldl (processFile cfg pl) S1
      let S3 := dbCommit S2
      ⟨Except.ok
        { processed := S3.processedIds.length,
          skippedCount := S3.skipped.length,
          trackIds := S3.processedIds,
          skippedList := S3.skipped,
          playlist := pl.map (fun pid => (pid, S3.processedIds.length + S3.skipped.length)),
          autoLiked := cfg.isTrack },
        S3.committed, [], S3.musicFiles⟩

/-- Whether an `Except` is an error. -/
def exceptIsError {ε α : Type} : Except ε α → Bool
  | Except.error _ => true
  | Except.ok _ => false

/-! ## Concrete instances used to evaluate the development -/

/-- An existing library track with hash "h". -/
def exDupTrack : TrackRow := ⟨1, "h", "t0", "p0", 5, 2⟩

/-- A downloaded file whose hash collides with `exDupTrack`. -/
def exDupFile : FileInfo := ⟨"h", "dup", 5, true, FailPoint.none⟩

/-- A playlist run whose only file is a duplicate of an existing track. -/
def exCfgDedup : RunCfg :=
  { isPlaylist := true, isAlbum := false, isTrack := false,
    tagId := some 7, tagValid := true, globalTagId := some 8, globalTagValid := true,
    userId := 3, quotaMb := 100, timedOut := false, exitCode := 0,
    files := [exDupFile],
    initDb := ⟨[exDupTrack], [], [], [], [], [], 5⟩,
    playlistId := 50, firstTrackId := 10 }

/-- A playlist run: a duplicate file followed by a file that raises during
metadata extraction. -/
def exCfgDedupLost : RunCfg :=
  { isPlaylist := true, isAlbum := false, isTrack := false,
    tagId := none, tagValid := false, globalTagId := none, globalTagValid := false,
    userId := 3, quotaMb := 100, timedOut := false, exitCode := 0,
    files := [⟨"h", "dup", 5, true, FailPoint.none⟩,
              ⟨"h2", "bad", 5, true, FailPoint.exnEarly⟩],
    initDb := ⟨[⟨1, "h", "t0", "p0", 5, 7⟩], [], [], [], [], [], 5⟩,
    playlistId := 50, firstTrackId := 10 }

/-- A file that raises during metadata extraction. -/
def exBadFile : FileInfo := ⟨"h2", "bad", 5, true, FailPoint.exnEarly⟩

/-- A playlist run with a tag and a global tag requested: the duplicate file
followed by `exBadFile`, whose failure rolls back pending work. -/
def exCfgDedupMixed : RunCfg :=
  { isPlaylist := true, isAlbum := false, isTrack := false,
    tagId := some 7, tagValid := true, globalTagId := some 8, globalTagValid := true,
    userId := 3, quotaMb := 100, timedOut := false, exitCode := 0,
    files := [exDupFile, exBadFile],
    initDb := ⟨[exDupTrack], [], [], [], [], [], 5⟩,
    playlistId := 50, firstTrackId := 10 }

/-- A run whose single file would push usage past the quota (99 + 5 > 100). -/
def exCfgQuotaSilent : RunCfg :=
  { isPlaylist := false, isAlbum := false, isTrack := true,
    tagId := none, tagValid := false, globalTagId := none, globalTagValid := false,
    userId := 3, quotaMb := 100, timedOut := false, exitCode := 0,
    files := [⟨"q1", "big", 5, true, FailPoint.none⟩],
    initDb := ⟨[], [], [], [], [], [], 99⟩,
    playlistId := 0, firstTrackId := 10 }

/-- A run that starts with usage already at the quota (100 of 100). -/
def exCfgQuotaStart : RunCfg :=
  { isPlaylist := false, isAlbum := false, isTrack := true,
    tagId := none, tagValid := false, globalTagId := none, globalTagValid := false,
    userId := 3, quotaMb := 100, timedOut := false, exitCode := 0,
    files := [⟨"q2", "s", 1, true, FailPoint.none⟩],
    initDb := ⟨[], [], [], [], [], [], 100⟩,
    playlistId := 0, firstTrackId := 10 }

/-- A file whose database persistence step raises after the file was moved. -/
def exPersistFile : FileInfo := ⟨"x", "a", 5, true, FailPoint.exnPersist⟩

/-- A run whose single file fails at the persistence step. -/
def exCfgPersist : RunCfg :=
  { isPlaylist := false, isAlbum := false, isTrack := true,
    tagId := none, tagValid := false, globalTagId := none, globalTagValid := false,
    userId := 3, quotaMb := 100, timedOut := false, exitCode := 0,
    files := [exPersistFile],
    initDb := ⟨[], [], [], [], [], [], 0⟩,
    playlistId := 0, firstTrackId := 1 }

/-- A file over the per-file quota threshold relative to `exQuotaState`. -/
def exQuotaFile : FileInfo := ⟨"qq", "tt", 50, true, FailPoint.none⟩

/-- The loop state of `exCfgQuotaSilent` before processing `exQuotaFile`. -/
def exQuotaState : PState := initPState exCfgQuotaSilent [exQuotaFile]

/-- The loop state of `exCfgPersist` before processing `exPersistFile`. -/
def exPersistState : PState := initPState exCfgPersist [exPersistFile]

/-- A run with one well-behaved file, with a title needing sanitisation. -/
def exCfgOk : RunCfg :=
  { isPlaylist := false, isAlbum := false, isTrack := true,
    tagId := none, tagValid := false, globalTagId := none, globalTagValid := false,
    userId := 3, quotaMb := 100, timedOut := false, exitCode := 0,
    files := [⟨"abcdefghijklmnop", "My <Song>. ", 5, true, FailPoint.none⟩],
    initDb := ⟨[], [], [], [], [], [], 0⟩,
    playlistId := 0, firstTrackId := 1 }

/-- What one run of the `_process_queue` loop does: it dispatches some
prefix of the queue into the processing dict and touches nothing else
(except the jobs registry entries). -/
structure PQSpec (s t : QState) (k : Nat) : Prop where
  q : t.queue = s.queue.drop k
  p : t.processing = s.processing ++ s.queue.take k
  mc : t.maxConcurrent = s.maxConcurrent
  ni : t.nextId = s.nextId
  co : t.completed = s.completed
  fa : t.failed = s.failed
  tc : t.totalCompleted = s.totalCompleted
  tf : t.totalFailed = s.totalFailed
  jn : ∀ x, lookupJob s.jobs x = none → lookupJob t.jobs x = none

/-- Well-formedness of every reachable scheduler state: the queue is in
strict submission order and ids are bounded by the id counter; processing
holds distinct ids disjoint from the queue, at most `max_concurrent` of
them; queued jobs carry the dense 1..N positions, processing jobs a
cleared position; per-user histories are bounded by 10 and disjoint from
the live containers. -/
structure QInv (s : QState) : Prop where
  qSorted : s.queue.Pairwise (· < ·)
  qLt : ∀ id, id ∈ s.queue → id < s.nextId
  pLt : ∀ id, id ∈ s.processing → id < s.nextId
  pNodup : s.processing.Nodup
  qpDisj : ∀ id, id ∈ s.queue → id ∉ s.processing
  pBound : s.processing.length ≤ s.maxConcurrent
  keysLt : ∀ p, p ∈ s.jobs → p.1 < s.nextId
  posDense : ∀ i x, s.queue.get? i = some x →
    ∃ j, lookupJob s.jobs x = some j ∧
      j.position = some (i + 1) ∧ j.status = DStatus.queued
  procCleared : ∀ id, id ∈ s.processing →
    ∃ j, lookupJob s.jobs id = some j ∧ j.position = none ∧
      j.status = DStatus.processing
  histCLt : ∀ u id, id ∈ histGet s.completed u → id < s.nextId
  histFLt : ∀ u id, id ∈ histGet s.failed u → id < s.nextId
  histCDisj : ∀ u id, id ∈ histGet s.completed u → id ∉ s.queue ∧ id ∉ s.processing
  histFDisj : ∀ u id, id ∈ histGet s.failed u → id ∉ s.queue ∧ id ∉ s.processing
  histCBound : ∀ u, (histGet s.completed u).length ≤ 10
  histFBound : ∀ u, (histGet s.failed u).length ≤ 10

/-! ## Lemmas: association-list helpers -/

theorem lookupJob_updateJob_self (l : List (Nat × DJob)) (id : Nat) (f : DJob → DJob) :
    lookupJob (updateJob l id f) id = (lookupJob l id).map f := by
  induction l with
  | nil => rfl
  | cons p rest ih =>
    obtain ⟨k, j⟩ := p
    by_cases hk : k = id <;> simp [updateJob, lookupJob, hk, ih]

theorem lookupJob_updateJob_ne (l : List (Nat × DJob)) (id x : Nat) (f : DJob → DJob)
    (h : x ≠ id) : lookupJob (updateJob l id f) x = lookupJob l x := by
  induction l with
  | nil => rfl
  | cons p rest ih =>
    obtain ⟨k, j⟩ := p
    by_cases hk : k = id
    · subst hk
      simp [updateJob, lookupJob, Ne.symm h, ih]
    · by_cases hx : k = x <;> simp [updateJob, lookupJob, hk, hx, h, ih]

theorem lookupJob_updateJob_none (l : List (Nat × DJob)) (id x : Nat) (f : DJob → DJob)
    (h : lookupJob l x = none) : lookupJob (updateJob l id f) x = none := by
  by_cases hx : x = id
  · subst hx; rw [lookupJob_updateJob_self, h]; rfl
  · rw [lookupJob_updateJob_ne l id x f hx]; exact h

theorem lookupJob_removeJob_self (l : List (Nat × DJob)) (id : Nat) :
    lookupJob (removeJob l id) id = none := by
  induction l with
  | nil => rfl
  | cons p rest ih =>
    obtain ⟨k, j⟩ := p
    by_cases hk : k = id <;> simp [removeJob, lookupJob, hk] at ih ⊢ <;> simp [ih]

theorem lookupJob_removeJob_ne (l : List (Nat × DJob)) (id x : Nat) (h : x ≠ id) :
    lookupJob (removeJob l id) x = lookupJob l x := by
  induction l with
  | nil => rfl
  | cons p rest ih =>
    obtain ⟨k, j⟩ := p
    by_cases hk : k = id
    · subst hk
      simp [removeJob, lookupJob, Ne.symm h] at ih ⊢
      simp [ih]
    · by_cases hx : k = x <;> simp [removeJob, lookupJob, hk, hx, h] at ih ⊢ <;> simp [ih]

theorem lookupJob_append (l m : List (Nat × DJob)) (x : Nat) :
    lookupJob (l ++ m) x =
      match lookupJob l x with
      | some j => some j
      | none => lookupJob m x := by
  induction l with
  | nil => rfl
  | cons p rest ih =>
    obtain ⟨k, j⟩ := p
    by_cases hk : k = x <;> simp [lookupJob, hk, ih]

theorem updateJob_keys (l : List (Nat × DJob)) (id : Nat) (f : DJob → DJob)
    (P : Nat → Prop) (h : ∀ p, p ∈ l → P p.1) :
    ∀ p, p ∈ updateJob l id f → P p.1 := by
  induction l with
  | nil => intro p hp; cases hp
  | cons q rest ih =>
    obtain ⟨k, j⟩ := q
    intro p hp
    have hrest : ∀ p, p ∈ rest → P p.1 := fun p hpp => h p (List.mem_cons_of_mem _ hpp)
    by_cases hk : k = id
    · subst hk
      simp [updateJob] at hp
      rcases hp with hp | hp
      · subst hp; exact h (k, j) (List.mem_cons_self _ _)
      · exact ih hrest p hp
    · simp [updateJob, hk] at hp
      rcases hp with hp | hp
      · subst hp; exact h (k, j) (List.mem_cons_self _ _)
      · exact ih hrest p hp

theorem setPositions_keys (ids : List Nat) (jobs : List (Nat × DJob)) (n : Nat)
    (P : Nat → Prop) (h : ∀ p, p ∈ jobs → P p.1) :
    ∀ p, p ∈ setPositions jobs ids n → P p.1 := by
  induction ids generalizing jobs n with
  | nil => exact h
  | cons id rest ih =>
    exact ih (updateJob jobs id (posUpdate n)) (n + 1) (updateJob_keys jobs id _ P h)

theorem lookupJob_setPositions_notMem (ids : List Nat) (jobs : List (Nat × DJob)) (n x : Nat)
    (h : x ∉ ids) : lookupJob (setPositions jobs ids n) x = lookupJob jobs x := by
  induction ids generalizing jobs n with
  | nil => rfl
  | cons id rest ih =>
    have hx : x ≠ id := fun he => h (he ▸ List.mem_cons_self _ _)
    have hr : x ∉ rest := fun he => h (List.mem_cons_of_mem _ he)
    rw [setPositions, ih _ _ hr, lookupJob_updateJob_ne _ _ _ _ hx]

theorem lookupJob_setPositions_none (ids : List Nat) (jobs : List (Nat × DJob)) (n x : Nat)
    (h : lookupJob jobs x = none) : lookupJob (setPositions jobs ids n) x = none := by
  induction ids generalizing jobs n with
  | nil => exact h
  | cons id rest ih =>
    exact ih _ _ (lookupJob_updateJob_none jobs id x _ h)

theorem lookupJob_setPositions_at (ids : List Nat) (jobs : List (Nat × DJob)) (n : Nat)
    (hnd : ids.Nodup) (i x : Nat) (h : ids.get? i = some x) :
    lookupJob (setPositions jobs ids n) x =
      (lookupJob jobs x).map (posUpdate (n + i)) := by
  induction ids generalizing jobs n i with
  | nil => cases h
  | cons id rest ih =>
    have hid : id ∉ rest := (List.nodup_cons.mp hnd).1
    have hnr : rest.Nodup := (List.nodup_cons.mp hnd).2
    cases i with
    | zero =>
      have hx : id = x := by
        have : some id = some x := h
        injection this
      subst hx
      rw [setPositions, lookupJob_setPositions_notMem rest _ _ _ hid,
        lookupJob_updateJob_self]
      simp
    | succ i' =>
      have h' : rest.get? i' = some x := h
      rw [setPositions, ih _ _ hnr i' h']
      have hmem : x ∈ rest := List.get?_mem h'
      have hne : x ≠ id := fun he => hid (he ▸ hmem)
      rw [lookupJob_updateJob_ne _ _ _ _ hne]
      have harith : n + 1 + i' = n + (i' + 1) := by omega
      rw [harith]

theorem histGet_histSet_self (h : List (Nat × List Nat)) (u : Nat) (l : List Nat) :
    histGet (histSet h u l) u = l := by
  induction h with
  | nil => simp [histSet, histGet]
  | cons p rest ih =>
    obtain ⟨k, l0⟩ := p
    by_cases hk : k = u <;> simp [histSet, histGet, hk, ih]

theorem histGet_histSet_ne (h : List (Nat × List Nat)) (u v : Nat) (l : List Nat)
    (hne : v ≠ u) : histGet (histSet h u l) v = histGet h v := by
  induction h with
  | nil => simp [histSet, histGet, Ne.symm hne]
  | cons p rest ih =>
    obtain ⟨k, l0⟩ := p
    by_cases hk : k = u
    · subst hk
      simp [histSet, histGet, Ne.symm hne]
    · by_cases hv : k = v <;> simp [histSet, histGet, hk, hv, hne, ih]

/-! ## Lemmas: the `_process_queue` loop -/

theorem processQueue_full (s : QState) (h : ¬ s.processing.length < s.maxConcurrent) :
    processQueue s = s := by
  unfold processQueue
  cases hq : s.queue with
  | nil => rfl
  | cons id rest =>
    rw [processQueueGo, if_neg h]

theorem processQueue_nil (s : QState) (h : s.queue = []) : processQueue s = s := by
  unfold processQueue
  rw [h]
  rfl

theorem processQueue_cons (s : QState) (id : Nat) (rest : List Nat)
    (hlt : s.processing.length < s.maxConcurrent) (h : s.queue = id :: rest) :
    processQueue s = processQueue (dispatchHead s id rest) := by
  show processQueueGo s.queue s = processQueueGo (dispatchHead s id rest).queue _
  rw [h, processQueueGo, if_pos hlt]
  rfl

theorem dispatchHead_queue (s : QState) (id : Nat) (rest : List Nat) :
    (dispatchHead s id rest).queue = rest := rfl

theorem dispatchHead_processing (s : QState) (id : Nat) (rest : List Nat) :
    (dispatchHead s id rest).processing = s.processing ++ [id] := rfl

theorem dispatchHead_jobs (s : QState) (id : Nat) (rest : List Nat) :
    (dispatchHead s id rest).jobs = setPositions (updateJob s.jobs id procUpdate) rest 1 := rfl

theorem processQueue_spec (s : QState) : ∃ k, PQSpec s (processQueue s) k := by
  generalize hn : s.queue.length = n
  induction n using Nat.strong_induction_on generalizing s with
  | _ n ih =>
    by_cases hlt : s.processing.length < s.maxConcurrent
    · cases hq : s.queue with
      | nil =>
        refine ⟨0, ?_⟩
        rw [processQueue_nil s hq]
        exact ⟨by simp, by simp, rfl, rfl, rfl, rfl, rfl, rfl, fun x hx => hx⟩
      | cons id rest =>
        rw [processQueue_cons s id rest hlt hq]
        have hlen : rest.length < n := by
          subst hn
          simp [hq]
        obtain ⟨k, hk⟩ := ih rest.length hlen (dispatchHead s id rest) rfl
        refine ⟨k + 1, ?_⟩
        have hdq : (dispatchHead s id rest).queue = rest := rfl
        have hdp : (dispatchHead s id rest).processing = s.processing ++ [id] := rfl
        constructor
        · rw [hk.q, hdq, hq]
          rfl
        · rw [hk.p, hdp, hdq, hq]
          simp
        · rw [hk.mc]; rfl
        · rw [hk.ni]; rfl
        · rw [hk.co]; rfl
        · rw [hk.fa]; rfl
        · rw [hk.tc]; rfl
        · rw [hk.tf]; rfl
        · intro x hx
          apply hk.jn
          rw [dispatchHead_jobs]
          exact lookupJob_setPositions_none rest _ 1 x (lookupJob_updateJob_none _ id x _ hx)
    · refine ⟨0, ?_⟩
      rw [processQueue_full s hlt]
      exact ⟨by simp, by simp, rfl, rfl, rfl, rfl, rfl, rfl, fun x hx => hx⟩

/-! ## The scheduler invariant -/

theorem inv_dispatchHead (s : QState) (id : Nat) (rest : List Nat)
    (hI : QInv s) (hq : s.queue = id :: rest)
    (hlt : s.processing.length < s.maxConcurrent) :
    QInv (dispatchHead s id rest) := by
  have hidq : id ∈ s.queue := by rw [hq]; exact List.mem_cons_self _ _
  have hrq : ∀ x, x ∈ rest → x ∈ s.queue := by
    intro x hx; rw [hq]; exact List.mem_cons_of_mem _ hx
  have hqnd : s.queue.Nodup := hI.qSorted.imp fun hab => Nat.ne_of_lt hab
  have hidrest : id ∉ rest := by
    rw [hq] at hqnd
    exact (List.nodup_cons.mp hqnd).1
  have hrestnd : rest.Nodup := by
    rw [hq] at hqnd
    exact (List.nodup_cons.mp hqnd).2
  have hidp : id ∉ s.processing := hI.qpDisj id hidq
  have hjq : (dispatchHead s id rest).queue = rest := rfl
  have hjp : (dispatchHead s id rest).processing = s.processing ++ [id] := rfl
  have hjj : (dispatchHead s id rest).jobs =
      setPositions (updateJob s.jobs id procUpdate) rest 1 := rfl
  have hjn : (dispatchHead s id rest).nextId = s.nextId := rfl
  have hsorted : rest.Pairwise (· < ·) := by
    have := hI.qSorted
    rw [hq] at this
    exact (List.pairwise_cons.mp this).2
  constructor
  · rw [hjq]; exact hsorted
  · intro x hx
    rw [hjq] at hx
    rw [hjn]
    exact hI.qLt x (hrq x hx)
  · intro x hx
    rw [hjp] at hx
    rw [hjn]
    rcases List.mem_append.mp hx with hx | hx
    · exact hI.pLt x hx
    · rw [List.mem_singleton.mp hx]
      exact hI.qLt id hidq
  · rw [hjp]
    rw [List.nodup_append]
    exact ⟨hI.pNodup, List.nodup_singleton id,
      fun x hx hx2 => hidp (List.mem_singleton.mp hx2 ▸ hx)⟩
  · intro x hx
    rw [hjq] at hx
    rw [hjp]
    intro hmem
    rcases List.mem_append.mp hmem with hm | hm
    · exact hI.qpDisj x (hrq x hx) hm
    · have : x = id := List.mem_singleton.mp hm
      exact hidrest (this ▸ hx)
  · rw [hjp]
    have : (s.processing ++ [id]).length = s.processing.length + 1 := by simp
    rw [this]
    have hmc : (dispatchHead s id rest).maxConcurrent = s.maxConcurrent := rfl
    rw [hmc]
    omega
  · intro p hp
    rw [hjj] at hp
    rw [hjn]
    exact setPositions_keys rest _ 1 (fun k => k < s.nextId)
      (updateJob_keys s.jobs id procUpdate (fun k => k < s.nextId) hI.keysLt) p hp
  · intro i x hx
    have hx2 : rest.get? i = some x := hx
    rw [hjj]
    rw [lookupJob_setPositions_at rest _ 1 hrestnd i x hx2]
    have hmem : x ∈ rest := List.get?_mem hx2
    have hne : x ≠ id := fun he => hidrest (he ▸ hmem)
    rw [lookupJob_updateJob_ne _ _ _ _ hne]
    have hq1 : s.queue.get? (i + 1) = some x := by
      rw [hq]
      exact hx2
    obtain ⟨j, hj1, hj2, hj3⟩ := hI.posDense (i + 1) x hq1
    rw [hj1]
    refine ⟨posUpdate (1 + i) j, rfl, ?_, ?_⟩
    · show some (1 + i) = some (i + 1)
      rw [Nat.add_comm]
    · exact hj3
  · intro x hx
    rw [hjp] at hx
    rw [hjj]
    rcases List.mem_append.mp hx with hm | hm
    · have hxnr : x ∉ rest := by
        intro hxr
        exact hI.qpDisj x (hrq x hxr) hm
      have hxni : x ≠ id := fun he => hidp (he ▸ hm)
      rw [lookupJob_setPositions_notMem rest _ 1 x hxnr,
        lookupJob_updateJob_ne _ _ _ _ hxni]
      exact hI.procCleared x hm
    · have hxid : x = id := List.mem_singleton.mp hm
      subst hxid
      rw [lookupJob_setPositions_notMem rest _ 1 x hidrest,
        lookupJob_updateJob_self]
      have h0 : s.queue.get? 0 = some x := by rw [hq]; rfl
      obtain ⟨j, hj1, _, _⟩ := hI.posDense 0 x h0
      rw [hj1]
      exact ⟨procUpdate j, rfl, rfl, rfl⟩
  · intro u x hx
    rw [hjn]
    exact hI.histCLt u x hx
  · intro u x hx
    rw [hjn]
    exact hI.histFLt u x hx
  · intro u x hx
    have hd := hI.histCDisj u x hx
    rw [hjq, hjp]
    constructor
    · intro hxr; exact hd.1 (hrq x hxr)
    · intro hm
      rcases List.mem_append.mp hm with hm | hm
      · exact hd.2 hm
      · have : x = id := List.mem_singleton.mp hm
        exact hd.1 (this ▸ hidq)
  · intro u x hx
    have hd := hI.histFDisj u x hx
    rw [hjq, hjp]
    constructor
    · intro hxr; exact hd.1 (hrq x hxr)
    · intro hm
      rcases List.mem_append.mp hm with hm | hm
      · exact hd.2 hm
      · have : x = id := List.mem_singleton.mp hm
        exact hd.1 (this ▸ hidq)
  · exact hI.histCBound
  · exact hI.histFBound

theorem inv_processQueue (s : QState) (hI : QInv s) : QInv (processQueue s) := by
  generalize hn : s.queue.length = n
  induction n using Nat.strong_induction_on generalizing s with
  | _ n ih =>
    by_cases hlt : s.processing.length < s.maxConcurrent
    · cases hq : s.queue with
      | nil => rw [processQueue_nil s hq]; exact hI
      | cons id rest =>
        rw [processQueue_cons s id rest hlt hq]
        have hlen : rest.length < n := by
          subst hn
          simp [hq]
        exact ih rest.length hlen (dispatchHead s id rest)
          (inv_dispatchHead s id rest hI hq hlt) rfl
    · rw [processQueue_full s hlt]; exact hI

theorem lookupJob_none_of_keysLt (l : List (Nat × DJob)) (n : Nat)
    (h : ∀ p, p ∈ l → p.1 < n) : lookupJob l n = none := by
  induction l with
  | nil => rfl
  | cons p rest ih =>
    obtain ⟨k, j⟩ := p
    have hk : k < n := h (k, j) (List.mem_cons_self _ _)
    have hne : ¬ k = n := by omega
    simp only [lookupJob, if_neg hne]
    exact ih fun q hq => h q (List.mem_cons_of_mem _ hq)

theorem removeJob_keys (l : List (Nat × DJob)) (id : Nat)
    (P : Nat → Prop) (h : ∀ p, p ∈ l → P p.1) :
    ∀ p, p ∈ removeJob l id → P p.1 :=
  fun p hp => h p (List.mem_of_mem_filter hp)

/-- Common shape of the bookkeeping done by `mark_job_completed` and
`mark_job_failed` before they re-run `_process_queue`: the processing id is
erased, its job object is restamped, at most one history-evicted id `o` is
dropped from the registry, and the history buckets change only as allowed. -/
theorem inv_markGeneric (s t : QState) (hI : QInv s) (id o : Nat) (f : DJob → DJob)
    (hid : id ∈ s.processing)
    (htq : t.queue = s.queue)
    (htn : t.nextId = s.nextId)
    (htm : t.maxConcurrent = s.maxConcurrent)
    (htp : t.processing = s.processing.erase id)
    (htj : t.jobs = updateJob s.jobs id f ∨
      (t.jobs = removeJob (updateJob s.jobs id f) o ∧ o ∉ s.queue ∧ o ∉ s.processing))
    (hCmem : ∀ u x, x ∈ histGet t.completed u → x ∈ histGet s.completed u ∨ x = id)
    (hCbnd : ∀ u, (histGet t.completed u).length ≤ 10)
    (hFmem : ∀ u x, x ∈ histGet t.failed u → x ∈ histGet s.failed u ∨ x = id)
    (hFbnd : ∀ u, (histGet t.failed u).length ≤ 10) :
    QInv t := by
  have hidnq : id ∉ s.queue := fun hmem => hI.qpDisj id hmem hid
  have herasub : ∀ x, x ∈ s.processing.erase id → x ∈ s.processing :=
    fun x hx => (List.erase_sublist id s.processing).mem hx
  have hlookup : ∀ x, x ≠ id → x ∈ s.queue ∨ x ∈ s.processing →
      lookupJob t.jobs x = lookupJob s.jobs x := by
    intro x hx hmem
    rcases htj with htj | ⟨htj, ho1, ho2⟩
    · rw [htj, lookupJob_updateJob_ne _ _ _ _ hx]
    · have hxo : x ≠ o := by
        intro he
        subst he
        rcases hmem with hm | hm
        · exact ho1 hm
        · exact ho2 hm
      rw [htj, lookupJob_removeJob_ne _ _ _ hxo, lookupJob_updateJob_ne _ _ _ _ hx]
  constructor
  · rw [htq]; exact hI.qSorted
  · intro x hx
    rw [htq] at hx
    rw [htn]
    exact hI.qLt x hx
  · intro x hx
    rw [htp] at hx
    rw [htn]
    exact hI.pLt x (herasub x hx)
  · rw [htp]
    exact hI.pNodup.erase id
  · intro x hx
    rw [htq] at hx
    rw [htp]
    intro hmem
    exact hI.qpDisj x hx (herasub x hmem)
  · rw [htp, htm]
    exact Nat.le_trans (List.length_erase_le id s.processing) hI.pBound
  · intro p hp
    rw [htn]
    rcases htj with htj | ⟨htj, _, _⟩
    · rw [htj] at hp
      exact updateJob_keys s.jobs id f (fun k => k < s.nextId) hI.keysLt p hp
    · rw [htj] at hp
      exact removeJob_keys _ o (fun k => k < s.nextId)
        (updateJob_keys s.jobs id f (fun k => k < s.nextId) hI.keysLt) p hp
  · intro i x hx
    rw [htq] at hx
    have hmem : x ∈ s.queue := List.get?_mem hx
    have hxid : x ≠ id := fun he => hidnq (he ▸ hmem)
    rw [hlookup x hxid (Or.inl hmem)]
    exact hI.posDense i x hx
  · intro x hx
    rw [htp] at hx
    have hxp : x ∈ s.processing := herasub x hx
    have hxid : x ≠ id := (hI.pNodup.mem_erase_iff.mp hx).1
    rw [hlookup x hxid (Or.inr hxp)]
    exact hI.procCleared x hxp
  · intro u x hx
    rw [htn]
    rcases hCmem u x hx with h | h
    · exact hI.histCLt u x h
    · subst h
      exact hI.pLt x hid
  · intro u x hx
    rw [htn]
    rcases hFmem u x hx with h | h
    · exact hI.histFLt u x h
    · subst h
      exact hI.pLt x hid
  · intro u x hx
    rw [htq, htp]
    rcases hCmem u x hx with h | h
    · obtain ⟨h1, h2⟩ := hI.histCDisj u x h
      exact ⟨h1, fun hmem => h2 (herasub x hmem)⟩
    · subst h
      exact ⟨hidnq, hI.pNodup.not_mem_erase⟩
  · intro u x hx
    rw [htq, htp]
    rcases hFmem u x hx with h | h
    · obtain ⟨h1, h2⟩ := hI.histFDisj u x h
      exact ⟨h1, fun hmem => h2 (herasub x hmem)⟩
    · subst h
      exact ⟨hidnq, hI.pNodup.not_mem_erase⟩
  · exact hCbnd
  · exact hFbnd

theorem headD_append_singleton_mem (l : List Nat) (id : Nat) (h : l ≠ []) :
    (l ++ [id]).headD 0 ∈ l := by
  cases l with
  | nil => exact absurd rfl h
  | cons a t => exact List.mem_cons_self _ _

theorem inv_markCompleted (s : QState) (id res : Nat) (hI : QInv s) :
    QInv (markCompleted s id res) := by
  unfold markCompleted
  by_cases hmem : id ∈ s.processing
  · rw [if_pos hmem]
    cases hlook : lookupJob s.jobs id with
    | none => exact hI
    | some j =>
      dsimp only
      by_cases hfull : 10 < (histGet s.completed j.userId ++ [id]).length
      · rw [if_pos hfull]
        apply inv_processQueue
        have hne : histGet s.completed j.userId ≠ [] := by
          intro h0
          rw [h0] at hfull
          simp at hfull
        have homem : (histGet s.completed j.userId ++ [id]).headD 0 ∈
            histGet s.completed j.userId := headD_append_singleton_mem _ id hne
        have hod := hI.histCDisj j.userId _ homem
        refine inv_markGeneric s _ hI id
          ((histGet s.completed j.userId ++ [id]).headD 0) (completedStamp res) hmem
          ?_ ?_ ?_ ?_ ?_ ?_ ?_ ?_ ?_
        · rfl
        · rfl
        · rfl
        · rfl
        · exact Or.inr ⟨rfl, hod.1, hod.2⟩
        · intro u x hx
          by_cases hu : u = j.userId
          · subst hu
            rw [histGet_histSet_self] at hx
            have hx2 : x ∈ histGet s.completed j.userId ++ [id] :=
              List.drop_subset 1 _ hx
            rcases List.mem_append.mp hx2 with h | h
            · exact Or.inl h
            · exact Or.inr (List.mem_singleton.mp h)
          · rw [histGet_histSet_ne _ _ _ _ hu] at hx
            exact Or.inl hx
        · intro u
          by_cases hu : u = j.userId
          · subst hu
            rw [histGet_histSet_self]
            have : (histGet s.completed j.userId ++ [id]).length =
                (histGet s.completed j.userId).length + 1 := by simp
            rw [List.length_drop, this]
            have := hI.histCBound j.userId
            omega
          · rw [histGet_histSet_ne _ _ _ _ hu]
            exact hI.histCBound u
        · intro u x hx
          exact Or.inl hx
        · exact hI.histFBound
      · rw [if_neg hfull]
        apply inv_processQueue
        refine inv_markGeneric s _ hI id 0 (completedStamp res) hmem
          ?_ ?_ ?_ ?_ ?_ ?_ ?_ ?_ ?_
        · rfl
        · rfl
        · rfl
        · rfl
        · exact Or.inl rfl
        · intro u x hx
          by_cases hu : u = j.userId
          · subst hu
            rw [histGet_histSet_self] at hx
            rcases List.mem_append.mp hx with h | h
            · exact Or.inl h
            · exact Or.inr (List.mem_singleton.mp h)
          · rw [histGet_histSet_ne _ _ _ _ hu] at hx
            exact Or.inl hx
        · intro u
          by_cases hu : u = j.userId
          · subst hu
            rw [histGet_histSet_self]
            omega
          · rw [histGet_histSet_ne _ _ _ _ hu]
            exact hI.histCBound u
        · intro u x hx
          exact Or.inl hx
        · exact hI.histFBound
  · rw [if_neg hmem]
    exact hI

theorem inv_markFailed (s : QState) (id : Nat) (err : String) (hI : QInv s) :
    QInv (markFailed s id err) := by
  unfold markFailed
  by_cases hmem : id ∈ s.processing
  · rw [if_pos hmem]
    cases hlook : lookupJob s.jobs id with
    | none => exact hI
    | some j =>
      dsimp only
      by_cases hfull : 10 < (histGet s.failed j.userId ++ [id]).length
      · rw [if_pos hfull]
        apply inv_processQueue
        have hne : histGet s.failed j.userId ≠ [] := by
          intro h0
          rw [h0] at hfull
          simp at hfull
        have homem : (histGet s.failed j.userId ++ [id]).headD 0 ∈
            histGet s.failed j.userId := headD_append_singleton_mem _ id hne
        have hod := hI.histFDisj j.userId _ homem
        refine inv_markGeneric s _ hI id
          ((histGet s.failed j.userId ++ [id]).headD 0) (failedStamp err) hmem
          ?_ ?_ ?_ ?_ ?_ ?_ ?_ ?_ ?_
        · rfl
        · rfl
        · rfl
        · rfl
        · exact Or.inr ⟨rfl, hod.1, hod.2⟩
        · intro u x hx
          exact Or.inl hx
        · exact hI.histCBound
        · intro u x hx
          by_cases hu : u = j.userId
          · subst hu
            rw [histGet_histSet_self] at hx
            have hx2 : x ∈ histGet s.failed j.userId ++ [id] :=
              List.drop_subset 1 _ hx
            rcases List.mem_append.mp hx2 with h | h
            · exact Or.inl h
            · exact Or.inr (List.mem_singleton.mp h)
          · rw [histGet_histSet_ne _ _ _ _ hu] at hx
            exact Or.inl hx
        · intro u
          by_cases hu : u = j.userId
          · subst hu
            rw [histGet_histSet_self]
            have : (histGet s.failed j.userId ++ [id]).length =
                (histGet s.failed j.userId).length + 1 := by simp
            rw [List.length_drop, this]
            have := hI.histFBound j.userId
            omega
          · rw [histGet_histSet_ne _ _ _ _ hu]
            exact hI.histFBound u
      · rw [if_neg hfull]
        apply inv_processQueue
        refine inv_markGeneric s _ hI id 0 (failedStamp err) hmem
          ?_ ?_ ?_ ?_ ?_ ?_ ?_ ?_ ?_
        · rfl
        · rfl
        · rfl
        · rfl
        · exact Or.inl rfl
        · intro u x hx
          exact Or.inl hx
        · exact hI.histCBound
        · intro u x hx
          by_cases hu : u = j.userId
          · subst hu
            rw [histGet_histSet_self] at hx
            rcases List.mem_append.mp hx with h | h
            · exact Or.inl h
            · exact Or.inr (List.mem_singleton.mp h)
          · rw [histGet_histSet_ne _ _ _ _ hu] at hx
            exact Or.inl hx
        · intro u
          by_cases hu : u = j.userId
          · subst hu
            rw [histGet_histSet_self]
            omega
          · rw [histGet_histSet_ne _ _ _ _ hu]
            exact hI.histFBound u
  · rw [if_neg hmem]
    exact hI

theorem inv_addJob (s : QState) (u : Nat) (hI : QInv s) : QInv (addJob s u) := by
  unfold addJob
  apply inv_processQueue
  have hnidq : s.nextId ∉ s.queue := fun hmem => Nat.lt_irrefl _ (hI.qLt _ hmem)
  have hnidp : s.nextId ∉ s.processing := fun hmem => Nat.lt_irrefl _ (hI.pLt _ hmem)
  have hq2 : (s.queue ++ [s.nextId]).Pairwise (· < ·) := by
    rw [List.pairwise_append]
    exact ⟨hI.qSorted, List.pairwise_singleton _ _,
      fun x hx y hy => (List.mem_singleton.mp hy) ▸ hI.qLt x hx⟩
  have hq2nd : (s.queue ++ [s.nextId]).Nodup := hq2.imp fun hab => Nat.ne_of_lt hab
  have hbase : ∀ p, p ∈ s.jobs ++ [(s.nextId, newJobRecord u)] → p.1 < s.nextId + 1 := by
    intro p hp
    rcases List.mem_append.mp hp with h | h
    · exact Nat.lt_succ_of_lt (hI.keysLt p h)
    · rw [List.mem_singleton.mp h]
      exact Nat.lt_succ_self _
  constructor
  · exact hq2
  · intro x hx
    rcases List.mem_append.mp hx with h | h
    · exact Nat.lt_succ_of_lt (hI.qLt x h)
    · rw [List.mem_singleton.mp h]
      exact Nat.lt_succ_self _
  · intro x hx
    exact Nat.lt_succ_of_lt (hI.pLt x hx)
  · exact hI.pNodup
  · intro x hx
    rcases List.mem_append.mp hx with h | h
    · exact hI.qpDisj x h
    · rw [List.mem_singleton.mp h]
      exact hnidp
  · exact hI.pBound
  · exact setPositions_keys _ _ 1 (fun k => k < s.nextId + 1) hbase
  · intro i x hx
    have hlk := lookupJob_setPositions_at (s.queue ++ [s.nextId])
      (s.jobs ++ [(s.nextId, newJobRecord u)]) 1 hq2nd i x hx
    rw [hlk]
    by_cases hi : i < s.queue.length
    · rw [List.get?_append hi] at hx
      obtain ⟨j, hj1, hj2, hj3⟩ := hI.posDense i x hx
      rw [lookupJob_append, hj1]
      refine ⟨posUpdate (1 + i) j, rfl, ?_, hj3⟩
      show some (1 + i) = some (i + 1)
      rw [Nat.add_comm]
    · rw [List.get?_append_right (Nat.le_of_not_lt hi)] at hx
      have hx2 := List.get?_mem hx
      have hxid : x = s.nextId := List.mem_singleton.mp hx2
      subst hxid
      have hizero : i - s.queue.length = 0 := by
        cases hiz : i - s.queue.length with
        | zero => rfl
        | succ m => rw [hiz] at hx; cases hx
      have hieq : i = s.queue.length := by omega
      rw [lookupJob_append, lookupJob_none_of_keysLt s.jobs s.nextId hI.keysLt]
      refine ⟨posUpdate (1 + i) (newJobRecord u), ?_, ?_, ?_⟩
      · simp [lookupJob]
      · show some (1 + i) = some (i + 1)
        rw [Nat.add_comm]
      · rfl
  · intro x hx
    have hxnq : x ∉ s.queue ++ [s.nextId] := by
      intro hmem
      rcases List.mem_append.mp hmem with h | h
      · exact hI.qpDisj x h hx
      · exact hnidp ((List.mem_singleton.mp h) ▸ hx)
    rw [lookupJob_setPositions_notMem _ _ _ _ hxnq]
    obtain ⟨j, hj1, hj2, hj3⟩ := hI.procCleared x hx
    rw [lookupJob_append, hj1]
    exact ⟨j, rfl, hj2, hj3⟩
  · intro v x hx
    exact Nat.lt_succ_of_lt (hI.histCLt v x hx)
  · intro v x hx
    exact Nat.lt_succ_of_lt (hI.histFLt v x hx)
  · intro v x hx
    obtain ⟨h1, h2⟩ := hI.histCDisj v x hx
    refine ⟨?_, h2⟩
    intro hmem
    rcases List.mem_append.mp hmem with h | h
    · exact h1 h
    · exact Nat.lt_irrefl _ ((List.mem_singleton.mp h) ▸ hI.histCLt v x hx)
  · intro v x hx
    obtain ⟨h1, h2⟩ := hI.histFDisj v x hx
    refine ⟨?_, h2⟩
    intro hmem
    rcases List.mem_append.mp hmem with h | h
    · exact h1 h
    · exact Nat.lt_irrefl _ ((List.mem_singleton.mp h) ▸ hI.histFLt v x hx)
  · exact hI.histCBound
  · exact hI.histFBound

theorem inv_initQState (c : Nat) : QInv (initQState c) :=
  ⟨List.Pairwise.nil,
   (fun _ hx => nomatch hx),
   (fun _ hx => nomatch hx),
   List.nodup_nil,
   (fun _ hx => nomatch hx),
   Nat.zero_le c,
   (fun _ hp => nomatch hp),
   (fun _ _ hx => nomatch hx),
   (fun _ hx => nomatch hx),
   (fun _ _ hx => nomatch hx),
   (fun _ _ hx => nomatch hx),
   (fun _ _ hx => nomatch hx),
   (fun _ _ hx => nomatch hx),
   (fun _ => Nat.zero_le 10),
   (fun _ => Nat.zero_le 10)⟩

theorem inv_applyOp (s : QState) (op : QOp) (hI : QInv s) : QInv (applyOp s op) := by
  cases op with
  | add u => exact inv_addJob s u hI
  | proc => exact inv_processQueue s hI
  | complete id res => exact inv_markCompleted s id res hI
  | fail id err => exact inv_markFailed s id err hI

theorem inv_foldl (ops : List QOp) (s : QState) (hI : QInv s) :
    QInv (ops.foldl applyOp s) := by
  induction ops generalizing s with
  | nil => exact hI
  | cons op rest ih => exact ih (applyOp s op) (inv_applyOp s op hI)

theorem inv_runOps (c : Nat) (ops : List QOp) : QInv (runOps c ops) :=
  inv_foldl ops (initQState c) (inv_initQState c)

theorem processQueue_maxConcurrent (s : QState) :
    (processQueue s).maxConcurrent = s.maxConcurrent := by
  obtain ⟨k, h⟩ := processQueue_spec s
  exact h.mc

theorem applyOp_maxConcurrent (s : QState) (op : QOp) :
    (applyOp s op).maxConcurrent = s.maxConcurrent := by
  cases op with
  | add u =>
    show (addJob s u).maxConcurrent = s.maxConcurrent
    unfold addJob
    rw [processQueue_maxConcurrent]
  | proc => exact processQueue_maxConcurrent s
  | complete id res =>
    show (markCompleted s id res).maxConcurrent = s.maxConcurrent
    unfold markCompleted
    by_cases hmem : id ∈ s.processing
    · rw [if_pos hmem]
      cases hlook : lookupJob s.jobs id with
      | none => rfl
      | some j =>
        dsimp only
        by_cases hfull : 10 < (histGet s.completed j.userId ++ [id]).length
        · rw [if_pos hfull, processQueue_maxConcurrent]
        · rw [if_neg hfull, processQueue_maxConcurrent]
    · rw [if_neg hmem]
  | fail id err =>
    show (markFailed s id err).maxConcurrent = s.maxConcurrent
    unfold markFailed
    by_cases hmem : id ∈ s.processing
    · rw [if_pos hmem]
      cases hlook : lookupJob s.jobs id with
      | none => rfl
      | some j =>
        dsimp only
        by_cases hfull : 10 < (histGet s.failed j.userId ++ [id]).length
        · rw [if_pos hfull, processQueue_maxConcurrent]
        · rw [if_neg hfull, processQueue_maxConcurrent]
    · rw [if_neg hmem]

theorem runOps_maxConcurrent (c : Nat) (ops : List QOp) :
    (runOps c ops).maxConcurrent = c := by
  have hgen : ∀ (l : List QOp) (s : QState),
      (l.foldl applyOp s).maxConcurrent = s.maxConcurrent := by
    intro l
    induction l with
    | nil => intro s; rfl
    | cons op rest ih =>
      intro s
      rw [List.foldl_cons, ih, applyOp_maxConcurrent]
  exact hgen ops (initQState c)

/-! ## Claim theorems for the scheduler -/

theorem take_lt_drop (l : List Nat) (hs : l.Pairwise (· < ·)) (k x y : Nat)
    (hx : x ∈ l.take k) (hy : y ∈ l.drop k) : x < y := by
  have hsplit : l.take k ++ l.drop k = l := List.take_append_drop k l
  rw [← hsplit] at hs
  exact (List.pairwise_append.mp hs).2.2 x hx y hy

theorem markCompleted_cases (s : QState) (id res : Nat) :
    markCompleted s id res = s ∨
    ∃ t, markCompleted s id res = processQueue t ∧ t.queue = s.queue ∧
      t.processing = s.processing.erase id := by
  unfold markCompleted
  by_cases hmem : id ∈ s.processing
  · rw [if_pos hmem]
    cases hlook : lookupJob s.jobs id with
    | none => exact Or.inl rfl
    | some j =>
      dsimp only
      by_cases hfull : 10 < (histGet s.completed j.userId ++ [id]).length
      · rw [if_pos hfull]
        exact Or.inr ⟨_, rfl, rfl, rfl⟩
      · rw [if_neg hfull]
        exact Or.inr ⟨_, rfl, rfl, rfl⟩
  · rw [if_neg hmem]
    exact Or.inl rfl

theorem markFailed_cases (s : QState) (id : Nat) (err : String) :
    markFailed s id err = s ∨
    ∃ t, markFailed s id err = processQueue t ∧ t.queue = s.queue ∧
      t.processing = s.processing.erase id := by
  unfold markFailed
  by_cases hmem : id ∈ s.processing
  · rw [if_pos hmem]
    cases hlook : lookupJob s.jobs id with
    | none => exact Or.inl rfl
    | some j =>
      dsimp only
      by_cases hfull : 10 < (histGet s.failed j.userId ++ [id]).length
      · rw [if_pos hfull]
        exact Or.inr ⟨_, rfl, rfl, rfl⟩
      · rw [if_neg hfull]
        exact Or.inr ⟨_, rfl, rfl, rfl⟩
  · rw [if_neg hmem]
    exact Or.inl rfl

/-- Any single operation dispatches only a prefix of a sorted queue: there
is a sorted list `q0` and a cut `k` such that the jobs newly in processing
all come from `q0.take k` and the remaining queue is `q0.drop k`. -/
theorem applyOp_dispatch (s : QState) (hI : QInv s) (op : QOp) :
    ∃ (q0 : List Nat) (k : Nat), q0.Pairwise (· < ·) ∧
      (∀ x, x ∈ (applyOp s op).processing → x ∉ s.processing → x ∈ q0.take k) ∧
      (applyOp s op).queue = q0.drop k := by
  cases op with
  | proc =>
    show ∃ (q0 : List Nat) (k : Nat), q0.Pairwise (· < ·) ∧
      (∀ x, x ∈ (processQueue s).processing → x ∉ s.processing → x ∈ q0.take k) ∧
      (processQueue s).queue = q0.drop k
    obtain ⟨k, hk⟩ := processQueue_spec s
    refine ⟨s.queue, k, hI.qSorted, ?_, hk.q⟩
    intro x hx hnx
    rw [hk.p] at hx
    rcases List.mem_append.mp hx with h | h
    · exact absurd h hnx
    · exact h
  | add u =>
    show ∃ (q0 : List Nat) (k : Nat), q0.Pairwise (· < ·) ∧
      (∀ x, x ∈ (addJob s u).processing → x ∉ s.processing → x ∈ q0.take k) ∧
      (addJob s u).queue = q0.drop k
    unfold addJob
    obtain ⟨k, hk⟩ := processQueue_spec
      { s with
        nextId := s.nextId + 1,
        queue := s.queue ++ [s.nextId],
        jobs := setPositions (s.jobs ++ [(s.nextId, newJobRecord u)])
          (s.queue ++ [s.nextId]) 1 }
    refine ⟨s.queue ++ [s.nextId], k, ?_, ?_, hk.q⟩
    · rw [List.pairwise_append]
      exact ⟨hI.qSorted, List.pairwise_singleton _ _,
        fun x hx y hy => (List.mem_singleton.mp hy) ▸ hI.qLt x hx⟩
    · intro x hx hnx
      rw [hk.p] at hx
      rcases List.mem_append.mp hx with h | h
      · exact absurd h hnx
      · exact h
  | complete id res =>
    show ∃ (q0 : List Nat) (k : Nat), q0.Pairwise (· < ·) ∧
      (∀ x, x ∈ (markCompleted s id res).processing → x ∉ s.processing → x ∈ q0.take k) ∧
      (markCompleted s id res).queue = q0.drop k
    rcases markCompleted_cases s id res with heq | ⟨t, heq, htq, htp⟩
    · rw [heq]
      exact ⟨s.queue, 0, hI.qSorted,
        fun x hx hnx => absurd hx hnx, by simp⟩
    · rw [heq]
      obtain ⟨k, hk⟩ := processQueue_spec t
      refine ⟨s.queue, k, hI.qSorted, ?_, by rw [hk.q, htq]⟩
      intro x hx hnx
      rw [hk.p, htp, htq] at hx
      rcases List.mem_append.mp hx with h | h
      · exact absurd ((List.erase_sublist id s.processing).mem h) hnx
      · exact h
  | fail id err =>
    show ∃ (q0 : List Nat) (k : Nat), q0.Pairwise (· < ·) ∧
      (∀ x, x ∈ (markFailed s id err).processing → x ∉ s.processing → x ∈ q0.take k) ∧
      (markFailed s id err).queue = q0.drop k
    rcases markFailed_cases s id err with heq | ⟨t, heq, htq, htp⟩
    · rw [heq]
      exact ⟨s.queue, 0, hI.qSorted,
        fun x hx hnx => absurd hx hnx, by simp⟩
    · rw [heq]
      obtain ⟨k, hk⟩ := processQueue_spec t
      refine ⟨s.queue, k, hI.qSorted, ?_, by rw [hk.q, htq]⟩
      intro x hx hnx
      rw [hk.p, htp, htq] at hx
      rcases List.mem_append.mp hx with h | h
      · exact absurd ((List.erase_sublist id s.processing).mem h) hnx
      · exact h

/-- Claim C1: for every sequence of submit, complete and fail operations on
a scheduler configured with concurrency limit `c` (the config default being
3), the size of the processing set never exceeds `c` at any reachable
state. -/
theorem C1_concurrency_bound (c : Nat) (ops : List QOp) :
    (runOps c ops).processing.length ≤ c ∧ maxConcurrentDownloadsDefault = 3 := by
  constructor
  · have h := (inv_runOps c ops).pBound
    rw [runOps_maxConcurrent c ops] at h
    exact h
  · rfl

/-- Claim C3: dispatch is strictly FIFO by submission order; whenever a job
newly enters PROCESSING by any operation, every job still queued afterwards
was submitted later (job ids increase with submission order). -/
theorem C3_fifo_dispatch (c : Nat) (ops : List QOp) (op : QOp) (jNew jQd : Nat)
    (hnew : jNew ∈ (applyOp (runOps c ops) op).processing)
    (hold : jNew ∉ (runOps c ops).processing)
    (hq : jQd ∈ (applyOp (runOps c ops) op).queue) :
    jNew < jQd := by
  obtain ⟨q0, k, hs, hmem, hqeq⟩ :=
    applyOp_dispatch (runOps c ops) (inv_runOps c ops) op
  rw [hqeq] at hq
  exact take_lt_drop q0 hs k jNew jQd (hmem jNew hnew hold) hq

theorem C3_fifo_dispatch_witness :
    1 ∈ (applyOp (runOps 1 [QOp.add 0, QOp.add 0, QOp.add 0]) (QOp.complete 0 5)).processing ∧
    1 ∉ (runOps 1 [QOp.add 0, QOp.add 0, QOp.add 0]).processing ∧
    2 ∈ (applyOp (runOps 1 [QOp.add 0, QOp.add 0, QOp.add 0]) (QOp.complete 0 5)).queue ∧
    1 < 2 :=
  ⟨by decide, by decide, by decide,
    C3_fifo_dispatch 1 [QOp.add 0, QOp.add 0, QOp.add 0] (QOp.complete 0 5) 1 2
      (by decide) (by decide) (by decide)⟩

/-- Claim C4: at every reachable state the queued jobs carry the dense
1..N position ranking (the i-th queued job has position i+1) and
processing jobs have their position cleared to null; concretely, after
five submissions with limit 2 jobs 0 and 1 are PROCESSING and jobs 2-4
report positions 1, 2, 3, and completing job 0 promotes job 2 and
renumbers jobs 3-4 to positions 1, 2. -/
theorem C4_positions_dense (c : Nat) (ops : List QOp) :
    (∀ i x, (runOps c ops).queue.get? i = some x →
      ∃ j, getJob (runOps c ops) x = some j ∧ j.position = some (i + 1)) ∧
    (∀ x, x ∈ (runOps c ops).processing →
      ∃ j, getJob (runOps c ops) x = some j ∧ j.position = none) ∧
    (runOps 2 [QOp.add 0, QOp.add 0, QOp.add 0, QOp.add 0, QOp.add 0]).processing
      = [0, 1] ∧
    (getJob (runOps 2 [QOp.add 0, QOp.add 0, QOp.add 0, QOp.add 0, QOp.add 0]) 2).map
      (fun j => j.position) = some (some 1) ∧
    (getJob (runOps 2 [QOp.add 0, QOp.add 0, QOp.add 0, QOp.add 0, QOp.add 0]) 3).map
      (fun j => j.position) = some (some 2) ∧
    (getJob (runOps 2 [QOp.add 0, QOp.add 0, QOp.add 0, QOp.add 0, QOp.add 0]) 4).map
      (fun j => j.position) = some (some 3) ∧
    (markCompleted (runOps 2 [QOp.add 0, QOp.add 0, QOp.add 0, QOp.add 0, QOp.add 0])
      0 0).processing = [1, 2] ∧
    (getJob (markCompleted (runOps 2 [QOp.add 0, QOp.add 0, QOp.add 0, QOp.add 0,
      QOp.add 0]) 0 0) 2).map (fun j => j.status) = some DStatus.processing ∧
    (getJob (markCompleted (runOps 2 [QOp.add 0, QOp.add 0, QOp.add 0, QOp.add 0,
      QOp.add 0]) 0 0) 3).map (fun j => j.position) = some (some 1) ∧
    (getJob (markCompleted (runOps 2 [QOp.add 0, QOp.add 0, QOp.add 0, QOp.add 0,
      QOp.add 0]) 0 0) 4).map (fun j => j.position) = some (some 2) := by
  refine ⟨?_, ?_, by decide, by decide, by decide, by decide, by decide, by decide,
    by decide, by decide⟩
  · intro i x hx
    obtain ⟨j, h1, h2, _⟩ := (inv_runOps c ops).posDense i x hx
    exact ⟨j, h1, h2⟩
  · intro x hx
    obtain ⟨j, h1, h2, _⟩ := (inv_runOps c ops).procCleared x hx
    exact ⟨j, h1, h2⟩

theorem C4_positions_dense_witness :
    (∃ j, getJob (runOps 2 [QOp.add 0, QOp.add 0, QOp.add 0, QOp.add 0, QOp.add 0]) 2
      = some j ∧ j.position = some 1) ∧
    (∃ j, getJob (runOps 2 [QOp.add 0, QOp.add 0, QOp.add 0, QOp.add 0, QOp.add 0]) 0
      = some j ∧ j.position = none) :=
  ⟨(C4_positions_dense 2 [QOp.add 0, QOp.add 0, QOp.add 0, QOp.add 0, QOp.add 0]).1
      0 2 (by decide),
   (C4_positions_dense 2 [QOp.add 0, QOp.add 0, QOp.add 0, QOp.add 0, QOp.add 0]).2.1
      0 (by decide)⟩

/-- Claim C7: per-owner histories retain at most 10 completed and 10 failed
jobs at every reachable state; when an eleventh job enters a bucket the
oldest entry of that bucket is evicted, the bucket becomes its tail plus
the new job, and the evicted id becomes unresolvable through `get_job`. -/
theorem C7_history_eviction :
    (∀ c ops u,
      (histGet (runOps c ops).completed u).length ≤ 10 ∧
      (histGet (runOps c ops).failed u).length ≤ 10) ∧
    (∀ s id res j o t, id ∈ s.processing → lookupJob s.jobs id = some j →
      histGet s.completed j.userId = o :: t → t.length = 9 →
      getJob (markCompleted s id res) o = none ∧
      histGet (markCompleted s id res).completed j.userId = t ++ [id]) ∧
    (∀ s id err j o t, id ∈ s.processing → lookupJob s.jobs id = some j →
      histGet s.failed j.userId = o :: t → t.length = 9 →
      getJob (markFailed s id err) o = none ∧
      histGet (markFailed s id err).failed j.userId = t ++ [id]) := by
  refine ⟨?_, ?_, ?_⟩
  · intro c ops u
    exact ⟨(inv_runOps c ops).histCBound u, (inv_runOps c ops).histFBound u⟩
  · intro s id res j o t hmem hlook hhist ht9
    unfold markCompleted
    rw [if_pos hmem, hlook]
    dsimp only
    have hfull : 10 < (histGet s.completed j.userId ++ [id]).length := by
      rw [hhist]
      simp [ht9]
    rw [if_pos hfull]
    obtain ⟨k, hk⟩ := processQueue_spec
      { s with
        processing := s.processing.erase id,
        jobs := removeJob (updateJob s.jobs id (completedStamp res))
          ((histGet s.completed j.userId ++ [id]).headD 0),
        completed := histSet s.completed j.userId
          ((histGet s.completed j.userId ++ [id]).drop 1),
        totalCompleted := s.totalCompleted + 1 }
    constructor
    · show lookupJob _ o = none
      apply hk.jn
      show lookupJob (removeJob (updateJob s.jobs id (completedStamp res))
        ((histGet s.completed j.userId ++ [id]).headD 0)) o = none
      rw [hhist]
      show lookupJob (removeJob (updateJob s.jobs id (completedStamp res)) o) o = none
      exact lookupJob_removeJob_self _ o
    · rw [hk.co]
      show histGet (histSet s.completed j.userId
        ((histGet s.completed j.userId ++ [id]).drop 1)) j.userId = t ++ [id]
      rw [histGet_histSet_self, hhist]
      rfl
  · intro s id err j o t hmem hlook hhist ht9
    unfold markFailed
    rw [if_pos hmem, hlook]
    dsimp only
    have hfull : 10 < (histGet s.failed j.userId ++ [id]).length := by
      rw [hhist]
      simp [ht9]
    rw [if_pos hfull]
    obtain ⟨k, hk⟩ := processQueue_spec
      { s with
        processing := s.processing.erase id,
        jobs := removeJob (updateJob s.jobs id (failedStamp err))
          ((histGet s.failed j.userId ++ [id]).headD 0),
        failed := histSet s.failed j.userId
          ((histGet s.failed j.userId ++ [id]).drop 1),
        totalFailed := s.totalFailed + 1 }
    constructor
    · show lookupJob _ o = none
      apply hk.jn
      show lookupJob (removeJob (updateJob s.jobs id (failedStamp err))
        ((histGet s.failed j.userId ++ [id]).headD 0)) o = none
      rw [hhist]
      show lookupJob (removeJob (updateJob s.jobs id (failedStamp err)) o) o = none
      exact lookupJob_removeJob_self _ o
    · rw [hk.fa]
      show histGet (histSet s.failed j.userId
        ((histGet s.failed j.userId ++ [id]).drop 1)) j.userId = t ++ [id]
      rw [histGet_histSet_self, hhist]
      rfl

theorem C7_history_eviction_witness :
    getJob (markCompleted (runOps 3 [QOp.add 0, QOp.complete 0 1, QOp.add 0,
      QOp.complete 1 1, QOp.add 0, QOp.complete 2 1, QOp.add 0, QOp.complete 3 1,
      QOp.add 0, QOp.complete 4 1, QOp.add 0, QOp.complete 5 1, QOp.add 0,
      QOp.complete 6 1, QOp.add 0, QOp.complete 7 1, QOp.add 0, QOp.complete 8 1,
      QOp.add 0, QOp.complete 9 1, QOp.add 0]) 10 99) 0 = none ∧
    histGet (markCompleted (runOps 3 [QOp.add 0, QOp.complete 0 1, QOp.add 0,
      QOp.complete 1 1, QOp.add 0, QOp.complete 2 1, QOp.add 0, QOp.complete 3 1,
      QOp.add 0, QOp.complete 4 1, QOp.add 0, QOp.complete 5 1, QOp.add 0,
      QOp.complete 6 1, QOp.add 0, QOp.complete 7 1, QOp.add 0, QOp.complete 8 1,
      QOp.add 0, QOp.complete 9 1, QOp.add 0]) 10 99).completed 0
      = [1, 2, 3, 4, 5, 6, 7, 8, 9] ++ [10] :=
  (C7_history_eviction).2.1 (runOps 3 [QOp.add 0, QOp.complete 0 1, QOp.add 0,
      QOp.complete 1 1, QOp.add 0, QOp.complete 2 1, QOp.add 0, QOp.complete 3 1,
      QOp.add 0, QOp.complete 4 1, QOp.add 0, QOp.complete 5 1, QOp.add 0,
      QOp.complete 6 1, QOp.add 0, QOp.complete 7 1, QOp.add 0, QOp.complete 8 1,
      QOp.add 0, QOp.complete 9 1, QOp.add 0]) 10 99
    { userId := 0, status := DStatus.processing, position := none,
      message := "Downloading...", error := none, result := none }
    0 [1, 2, 3, 4, 5, 6, 7, 8, 9]
    (by decide) (by decide) (by decide) (by decide)

/-- Claim C10: calling `mark_job_completed` or `mark_job_failed` with a job
id that is not currently processing (unknown, still queued, or already
terminal) leaves the entire scheduler state unchanged and triggers no
dispatch. -/
theorem C10_mark_noop (s : QState) (id res : Nat) (err : String)
    (h : id ∉ s.processing) :
    markCompleted s id res = s ∧ markFailed s id err = s := by
  unfold markCompleted markFailed
  rw [if_neg h, if_neg h]
  exact ⟨rfl, rfl⟩

theorem C10_mark_noop_witness :
    markCompleted (runOps 2 [QOp.add 0, QOp.add 0, QOp.add 0]) 2 5
      = runOps 2 [QOp.add 0, QOp.add 0, QOp.add 0] ∧
    markFailed (runOps 2 [QOp.add 0, QOp.add 0, QOp.add 0]) 2 "e"
      = runOps 2 [QOp.add 0, QOp.add 0, QOp.add 0] :=
  C10_mark_noop (runOps 2 [QOp.add 0, QOp.add 0, QOp.add 0]) 2 5 "e" (by decide)

/-! ## Lemmas: the ingestion pipeline -/

theorem find?_eq_head_filter (l : List TrackRow) (p : TrackRow → Bool) :
    l.find? p = (l.filter p).head? := by
  induction l with
  | nil => rfl
  | cons t rest ih =>
    by_cases hp : p t
    · rw [List.find?_cons_of_pos _ hp, List.filter_cons_of_pos hp]
      rfl
    · rw [List.find?_cons_of_neg _ (by simpa using hp), List.filter_cons_of_neg (by simpa using hp)]
      exact ih

theorem applyTagToTrack_fields (valid : Bool) (S : PState) (uId tId gId : Nat) :
    (applyTagToTrack valid S uId tId gId).skipped = S.skipped ∧
    (applyTagToTrack valid S uId tId gId).processedIds = S.processedIds ∧
    (applyTagToTrack valid S uId tId gId).pos = S.pos ∧
    (applyTagToTrack valid S uId tId gId).tempFiles = S.tempFiles ∧
    (applyTagToTrack valid S uId tId gId).musicFiles = S.musicFiles ∧
    (applyTagToTrack valid S uId tId gId).nextTrackId = S.nextTrackId ∧
    (applyTagToTrack valid S uId tId gId).pending.tracks = S.pending.tracks ∧
    (applyTagToTrack valid S uId tId gId).pending.storageUsed = S.pending.storageUsed := by
  unfold applyTagToTrack dbCommit
  split
  · split
    · exact ⟨rfl, rfl, rfl, rfl, rfl, rfl, rfl, rfl⟩
    · exact ⟨rfl, rfl, rfl, rfl, rfl, rfl, rfl, rfl⟩
  · exact ⟨rfl, rfl, rfl, rfl, rfl, rfl, rfl, rfl⟩

theorem applyGlobalTagToTrack_fields (valid : Bool) (S : PState) (uId tId gId : Nat) :
    (applyGlobalTagToTrack valid S uId tId gId).skipped = S.skipped ∧
    (applyGlobalTagToTrack valid S uId tId gId).processedIds = S.processedIds ∧
    (applyGlobalTagToTrack valid S uId tId gId).pos = S.pos ∧
    (applyGlobalTagToTrack valid S uId tId gId).tempFiles = S.tempFiles ∧
    (applyGlobalTagToTrack valid S uId tId gId).musicFiles = S.musicFiles ∧
    (applyGlobalTagToTrack valid S uId tId gId).nextTrackId = S.nextTrackId ∧
    (applyGlobalTagToTrack valid S uId tId gId).pending.tracks = S.pending.tracks ∧
    (applyGlobalTagToTrack valid S uId tId gId).pending.storageUsed = S.pending.storageUsed := by
  unfold applyGlobalTagToTrack dbCommit
  split
  · split
    · exact ⟨rfl, rfl, rfl, rfl, rfl, rfl, rfl, rfl⟩
    · exact ⟨rfl, rfl, rfl, rfl, rfl, rfl, rfl, rfl⟩
  · exact ⟨rfl, rfl, rfl, rfl, rfl, rfl, rfl, rfl⟩

theorem tagSteps_fields (cfg : RunCfg) (S : PState) (tId : Nat) :
    (tagSteps cfg S tId).skipped = S.skipped ∧
    (tagSteps cfg S tId).processedIds = S.processedIds ∧
    (tagSteps cfg S tId).pos = S.pos ∧
    (tagSteps cfg S tId).tempFiles = S.tempFiles ∧
    (tagSteps cfg S tId).musicFiles = S.musicFiles ∧
    (tagSteps cfg S tId).nextTrackId = S.nextTrackId ∧
    (tagSteps cfg S tId).pending.tracks = S.pending.tracks ∧
    (tagSteps cfg S tId).pending.storageUsed = S.pending.storageUsed := by
  unfold tagSteps
  cases cfg.tagId with
  | none =>
    cases cfg.globalTagId with
    | none => exact ⟨rfl, rfl, rfl, rfl, rfl, rfl, rfl, rfl⟩
    | some g => exact applyGlobalTagToTrack_fields _ _ _ _ _
  | some g =>
    cases cfg.globalTagId with
    | none => exact applyTagToTrack_fields _ _ _ _ _
    | some g2 =>
      obtain ⟨h1, h2, h3, h4, h5, h6, h7, h8⟩ :=
        applyTagToTrack_fields cfg.tagValid S cfg.userId tId g
      obtain ⟨g1, g2', g3, g4, g5, g6, g7, g8⟩ :=
        applyGlobalTagToTrack_fields cfg.globalTagValid
          (applyTagToTrack cfg.tagValid S cfg.userId tId g) cfg.userId tId g2
      exact ⟨g1.trans h1, g2'.trans h2, g3.trans h3, g4.trans h4, g5.trans h5,
        g6.trans h6, g7.trans h7, g8.trans h8⟩

theorem processFile_metadataSkip (cfg : RunCfg) (pl : Option Nat) (S : PState)
    (f : FileInfo) (h : f.metadataOk = false) : processFile cfg pl S f = S := by
  unfold processFile
  rw [h]
  rfl

theorem processFile_earlyFail (cfg : RunCfg) (pl : Option Nat) (S : PState)
    (f : FileInfo) (hm : f.metadataOk = true) (h : f.failAt = FailPoint.exnEarly) :
    processFile cfg pl S f = dbRollback S := by
  unfold processFile
  rw [hm, h]
  rfl

theorem processFile_quotaSkip (cfg : RunCfg) (pl : Option Nat) (S : PState)
    (f : FileInfo) (hm : f.metadataOk = true) (hf : f.failAt ≠ FailPoint.exnEarly)
    (hd : findTrackByHash S.pending f.hash = none)
    (hq : cfg.quotaMb < S.pending.storageUsed + f.sizeMb) :
    processFile cfg pl S f = S := by
  unfold processFile
  rw [hm, if_neg hf, hd]
  show (if cfg.quotaMb < S.pending.storageUsed + f.sizeMb then S else _) = S
  rw [if_pos hq]

theorem processFile_persistFail (cfg : RunCfg) (pl : Option Nat) (S : PState)
    (f : FileInfo) (hm : f.metadataOk = true) (hpf : f.failAt = FailPoint.exnPersist)
    (hd : findTrackByHash S.pending f.hash = none)
    (hq : ¬ cfg.quotaMb < S.pending.storageUsed + f.sizeMb) :
    processFile cfg pl S f =
      { S with
        tempFiles := S.tempFiles.erase f,
        musicFiles := S.musicFiles ++ [musicDir ++ finalFilename f.hash f.title],
        pending := S.committed,
        nextTrackId := S.nextTrackId + 1 } := by
  unfold processFile
  have hf : f.failAt ≠ FailPoint.exnEarly := by rw [hpf]; intro hc; cases hc
  rw [hm, if_neg hf, hd]
  show (if cfg.quotaMb < S.pending.storageUsed + f.sizeMb then S else _) = _
  rw [if_neg hq, hpf]
  rfl

theorem applyTagToTrack_step (valid : Bool) (S : PState) (u tid g : Nat) :
    (applyTagToTrack valid S u tid g).pending.tracks = S.pending.tracks ∧
    (applyTagToTrack valid S u tid g).pending.globalSongTags = S.pending.globalSongTags ∧
    (applyTagToTrack valid S u tid g).pending.playlistSongs = S.pending.playlistSongs ∧
    (∀ x, x ∈ S.pending.songTags → x ∈ (applyTagToTrack valid S u tid g).pending.songTags) ∧
    ((applyTagToTrack valid S u tid g).committed = S.committed ∨
      (applyTagToTrack valid S u tid g).committed = (applyTagToTrack valid S u tid g).pending) ∧
    (valid = true → (u, tid, g) ∈ (applyTagToTrack valid S u tid g).pending.songTags) := by
  unfold applyTagToTrack dbCommit
  by_cases hv : valid = true
  · rw [if_pos hv]
    by_cases hin : (S.pending.songTags.any
        (fun p => p.1 == u && p.2.1 == tid && p.2.2 == g)) = true
    · rw [if_pos hin]
      refine ⟨rfl, rfl, rfl, fun x hx => hx, Or.inl rfl, fun _ => ?_⟩
      obtain ⟨p, hp, hpe⟩ := List.any_eq_true.mp hin
      have h1 : p.1 = u := by
        have := (Bool.and_eq_true _ _).mp hpe
        exact eq_of_beq ((Bool.and_eq_true _ _).mp this.1).1
      have h2 : p.2.1 = tid := by
        have := (Bool.and_eq_true _ _).mp hpe
        exact eq_of_beq ((Bool.and_eq_true _ _).mp this.1).2
      have h3 : p.2.2 = g := by
        have := (Bool.and_eq_true _ _).mp hpe
        exact eq_of_beq this.2
      have : p = (u, tid, g) := by
        obtain ⟨a, b, c⟩ := p
        simp only at h1 h2 h3
        rw [h1, h2, h3]
      exact this ▸ hp
    · rw [if_neg hin]
      exact ⟨rfl, rfl, rfl,
        fun x hx => List.mem_append.mpr (Or.inl hx),
        Or.inr rfl,
        fun _ => List.mem_append.mpr (Or.inr (List.mem_singleton.mpr rfl))⟩
  · rw [if_neg hv]
    exact ⟨rfl, rfl, rfl, fun x hx => hx, Or.inl rfl,
      fun hc => absurd hc hv⟩

theorem applyGlobalTagToTrack_step (valid : Bool) (S : PState) (u tid g : Nat) :
    (applyGlobalTagToTrack valid S u tid g).pending.tracks = S.pending.tracks ∧
    (applyGlobalTagToTrack valid S u tid g).pending.songTags = S.pending.songTags ∧
    (applyGlobalTagToTrack valid S u tid g).pending.playlistSongs = S.pending.playlistSongs ∧
    (∀ x, x ∈ S.pending.globalSongTags →
      x ∈ (applyGlobalTagToTrack valid S u tid g).pending.globalSongTags) ∧
    ((applyGlobalTagToTrack valid S u tid g).committed = S.committed ∨
      (applyGlobalTagToTrack valid S u tid g).committed =
        (applyGlobalTagToTrack valid S u tid g).pending) ∧
    (valid = true → ∃ a, (tid, g, a) ∈
      (applyGlobalTagToTrack valid S u tid g).pending.globalSongTags) := by
  unfold applyGlobalTagToTrack dbCommit
  by_cases hv : valid = true
  · rw [if_pos hv]
    by_cases hin : (S.pending.globalSongTags.any
        (fun p => p.1 == tid && p.2.1 == g)) = true
    · rw [if_pos hin]
      refine ⟨rfl, rfl, rfl, fun x hx => hx, Or.inl rfl, fun _ => ?_⟩
      obtain ⟨p, hp, hpe⟩ := List.any_eq_true.mp hin
      have h1 : p.1 = tid := eq_of_beq ((Bool.and_eq_true _ _).mp hpe).1
      have h2 : p.2.1 = g := eq_of_beq ((Bool.and_eq_true _ _).mp hpe).2
      refine ⟨p.2.2, ?_⟩
      have : p = (tid, g, p.2.2) := by
        obtain ⟨a, b, c⟩ := p
        simp only at h1 h2
        rw [h1, h2]
      exact this ▸ hp
    · rw [if_neg hin]
      exact ⟨rfl, rfl, rfl,
        fun x hx => List.mem_append.mpr (Or.inl hx),
        Or.inr rfl,
        fun _ => ⟨u, List.mem_append.mpr (Or.inr (List.mem_singleton.mpr rfl))⟩⟩
  · rw [if_neg hv]
    exact ⟨rfl, rfl, rfl, fun x hx => hx, Or.inl rfl,
      fun hc => absurd hc hv⟩

theorem applyTagToTrack_cases (valid : Bool) (S : PState) (u tid g : Nat) :
    applyTagToTrack valid S u tid g = S ∨
    (applyTagToTrack valid S u tid g).committed = (applyTagToTrack valid S u tid g).pending := by
  unfold applyTagToTrack dbCommit
  by_cases hv : valid = true
  · rw [if_pos hv]
    by_cases hin : (S.pending.songTags.any
        (fun p => p.1 == u && p.2.1 == tid && p.2.2 == g)) = true
    · rw [if_pos hin]
      exact Or.inl rfl
    · rw [if_neg hin]
      exact Or.inr rfl
  · rw [if_neg hv]
    exact Or.inl rfl

theorem applyGlobalTagToTrack_cases (valid : Bool) (S : PState) (u tid g : Nat) :
    applyGlobalTagToTrack valid S u tid g = S ∨
    (applyGlobalTagToTrack valid S u tid g).committed =
      (applyGlobalTagToTrack valid S u tid g).pending := by
  unfold applyGlobalTagToTrack dbCommit
  by_cases hv : valid = true
  · rw [if_pos hv]
    by_cases hin : (S.pending.globalSongTags.any
        (fun p => p.1 == tid && p.2.1 == g)) = true
    · rw [if_pos hin]
      exact Or.inl rfl
    · rw [if_neg hin]
      exact Or.inr rfl
  · rw [if_neg hv]
    exact Or.inl rfl

theorem tagSteps_step (cfg : RunCfg) (S : PState) (tid : Nat) :
    (tagSteps cfg S tid).pending.tracks = S.pending.tracks ∧
    (tagSteps cfg S tid).pending.playlistSongs = S.pending.playlistSongs ∧
    (∀ x, x ∈ S.pending.songTags → x ∈ (tagSteps cfg S tid).pending.songTags) ∧
    (∀ x, x ∈ S.pending.globalSongTags →
      x ∈ (tagSteps cfg S tid).pending.globalSongTags) ∧
    (tagSteps cfg S tid = S ∨
      (tagSteps cfg S tid).committed = (tagSteps cfg S tid).pending) ∧
    (∀ g, cfg.tagId = some g → cfg.tagValid = true →
      (cfg.userId, tid, g) ∈ (tagSteps cfg S tid).pending.songTags) := by
  have hstep : ∀ (X : PState),
      (tagSteps cfg X tid).pending.tracks = X.pending.tracks ∧
      (tagSteps cfg X tid).pending.playlistSongs = X.pending.playlistSongs ∧
      (∀ x, x ∈ X.pending.songTags → x ∈ (tagSteps cfg X tid).pending.songTags) ∧
      (∀ x, x ∈ X.pending.globalSongTags →
        x ∈ (tagSteps cfg X tid).pending.globalSongTags) ∧
      (tagSteps cfg X tid = X ∨
        (tagSteps cfg X tid).committed = (tagSteps cfg X tid).pending) := by
    intro X
    unfold tagSteps
    cases hT : cfg.tagId with
    | none =>
      cases hG : cfg.globalTagId with
      | none => exact ⟨rfl, rfl, fun x hx => hx, fun x hx => hx, Or.inl rfl⟩
      | some g =>
        obtain ⟨a1, a2, a3, a4, _, _⟩ :=
          applyGlobalTagToTrack_step cfg.globalTagValid X cfg.userId tid g
        exact ⟨a1, a3, fun x hx => a2 ▸ hx, a4, applyGlobalTagToTrack_cases _ _ _ _ _⟩
    | some g =>
      cases hG : cfg.globalTagId with
      | none =>
        obtain ⟨a1, a2, a3, a4, _, _⟩ :=
          applyTagToTrack_step cfg.tagValid X cfg.userId tid g
        exact ⟨a1, a3, a4, fun x hx => a2 ▸ hx, applyTagToTrack_cases _ _ _ _ _⟩
      | some g2 =>
        dsimp only
        obtain ⟨a1, a2, a3, a4, _, _⟩ :=
          applyTagToTrack_step cfg.tagValid X cfg.userId tid g
        obtain ⟨b1, b2, b3, b4, _, _⟩ :=
          applyGlobalTagToTrack_step cfg.globalTagValid
            (applyTagToTrack cfg.tagValid X cfg.userId tid g) cfg.userId tid g2
        refine ⟨b1.trans a1, b3.trans a3, ?_, ?_, ?_⟩
        · intro x hx
          rw [b2]
          exact a4 x hx
        · intro x hx
          refine b4 x ?_
          rw [a2]
          exact hx
        · rcases applyTagToTrack_cases cfg.tagValid X cfg.userId tid g with h1 | h1
          · rw [h1]
            exact applyGlobalTagToTrack_cases _ _ _ _ _
          · rcases applyGlobalTagToTrack_cases cfg.globalTagValid
              (applyTagToTrack cfg.tagValid X cfg.userId tid g) cfg.userId tid g2 with
              h2 | h2
            · rw [h2]
              exact Or.inr h1
            · exact Or.inr h2
  obtain ⟨h1, h2, h3, h4, h5⟩ := hstep S
  refine ⟨h1, h2, h3, h4, h5, ?_⟩
  intro g hT hV
  unfold tagSteps
  rw [hT]
  cases hG : cfg.globalTagId with
  | none =>
    dsimp only
    exact (applyTagToTrack_step cfg.tagValid S cfg.userId tid g).2.2.2.2.2 hV
  | some g2 =>
    dsimp only
    obtain ⟨_, b2, _, _, _, _⟩ :=
      applyGlobalTagToTrack_step cfg.globalTagValid
        (applyTagToTrack cfg.tagValid S cfg.userId tid g) cfg.userId tid g2
    rw [b2]
    exact (applyTagToTrack_step cfg.tagValid S cfg.userId tid g).2.2.2.2.2 hV

theorem processFile_dup_eq (cfg : RunCfg) (pl : Option Nat) (S : PState)
    (f : FileInfo) (t : TrackRow)
    (hm : f.metadataOk = true) (hf : f.failAt ≠ FailPoint.exnEarly)
    (hd : findTrackByHash S.pending f.hash = some t) :
    processFile cfg pl S f =
      (let S2 := tagSteps cfg { S with skipped := S.skipped ++ [(f.title, t.id)] } t.id
       match pl with
       | some pid =>
         { S2 with
           pending := { S2.pending with playlistSongs :=
             S2.pending.playlistSongs ++ [⟨pid, t.id, S2.pos, cfg.userId⟩] },
           pos := S2.pos + 1 }
       | Option.none => { S2 with pos := S2.pos + 1 }) := by
  unfold processFile
  rw [hm, if_neg hf, hd]
  cases pl <;> rfl

theorem processFile_success_eq (cfg : RunCfg) (pl : Option Nat) (S : PState)
    (f : FileInfo)
    (hm : f.metadataOk = true) (hf1 : f.failAt ≠ FailPoint.exnEarly)
    (hf2 : f.failAt ≠ FailPoint.exnPersist)
    (hd : findTrackByHash S.pending f.hash = none)
    (hq : ¬ cfg.quotaMb < S.pending.storageUsed + f.sizeMb) :
    processFile cfg pl S f =
      (let trk : TrackRow :=
         ⟨S.nextTrackId, f.hash, f.title,
          musicDir ++ finalFilename f.hash f.title, f.sizeMb, cfg.userId⟩
       let S4 := tagSteps cfg
         { S with
           tempFiles := S.tempFiles.erase f,
           musicFiles := S.musicFiles ++ [musicDir ++ finalFilename f.hash f.title],
           pending := { S.pending with
             tracks := S.pending.tracks ++ [trk],
             storageUsed := S.pending.storageUsed + f.sizeMb },
           nextTrackId := S.nextTrackId + 1 } trk.id
       let S5 := match pl with
         | some pid =>
           { S4 with pending := { S4.pending with playlistSongs :=
               S4.pending.playlistSongs ++
                 ([⟨pid, trk.id, S4.pos, cfg.userId⟩] : List PlaylistSongRow) } }
         | Option.none => S4
       let S6 :=
         if cfg.isTrack then
           { S5 with pending := { S5.pending with likedSongs :=
               S5.pending.likedSongs ++ [(cfg.userId, trk.id)] } }
         else S5
       dbCommit { S6 with
         processedIds := S6.processedIds ++ [S.nextTrackId],
         pos := S6.pos + 1 }) := by
  unfold processFile
  rw [hm, if_neg hf1, hd]
  show (if cfg.quotaMb < S.pending.storageUsed + f.sizeMb then S else _) = _
  rw [if_neg hq, if_neg hf2]

theorem processFile_success_facts (cfg : RunCfg) (pl : Option Nat) (S : PState)
    (f : FileInfo)
    (hm : f.metadataOk = true) (hf1 : f.failAt ≠ FailPoint.exnEarly)
    (hf2 : f.failAt ≠ FailPoint.exnPersist)
    (hd : findTrackByHash S.pending f.hash = none)
    (hq : ¬ cfg.quotaMb < S.pending.storageUsed + f.sizeMb) :
    (processFile cfg pl S f).skipped = S.skipped ∧
    (∀ x, x ∈ S.pending.songTags → x ∈ (processFile cfg pl S f).pending.songTags) ∧
    (∀ x, x ∈ S.pending.globalSongTags →
      x ∈ (processFile cfg pl S f).pending.globalSongTags) ∧
    (∀ x, x ∈ S.pending.playlistSongs →
      x ∈ (processFile cfg pl S f).pending.playlistSongs) ∧
    (processFile cfg pl S f).committed = (processFile cfg pl S f).pending ∧
    (processFile cfg pl S f).pending.tracks = S.pending.tracks ++
      [⟨S.nextTrackId, f.hash, f.title,
        musicDir ++ finalFilename f.hash f.title, f.sizeMb, cfg.userId⟩] := by
  rw [processFile_success_eq cfg pl S f hm hf1 hf2 hd hq]
  dsimp only
  obtain ⟨t1, t2, t3, t4, t5, t6⟩ := tagSteps_step cfg
    { S with
      tempFiles := S.tempFiles.erase f,
      musicFiles := S.musicFiles ++ [musicDir ++ finalFilename f.hash f.title],
      pending := { S.pending with
        tracks := S.pending.tracks ++
          [⟨S.nextTrackId, f.hash, f.title,
            musicDir ++ finalFilename f.hash f.title, f.sizeMb, cfg.userId⟩],
        storageUsed := S.pending.storageUsed + f.sizeMb },
      nextTrackId := S.nextTrackId + 1 } S.nextTrackId
  have hsk := (tagSteps_fields cfg
    { S with
      tempFiles := S.tempFiles.erase f,
      musicFiles := S.musicFiles ++ [musicDir ++ finalFilename f.hash f.title],
      pending := { S.pending with
        tracks := S.pending.tracks ++
          [⟨S.nextTrackId, f.hash, f.title,
            musicDir ++ finalFilename f.hash f.title, f.sizeMb, cfg.userId⟩],
        storageUsed := S.pending.storageUsed + f.sizeMb },
      nextTrackId := S.nextTrackId + 1 } S.nextTrackId).1
  cases pl with
  | none =>
    dsimp only
    by_cases hit : cfg.isTrack = true
    · rw [if_pos hit]
      dsimp only [dbCommit]
      exact ⟨hsk, fun x hx => t3 x hx, fun x hx => t4 x hx,
        fun x hx => by rw [t2]; exact hx, rfl, t1⟩
    · rw [if_neg hit]
      dsimp only [dbCommit]
      exact ⟨hsk, fun x hx => t3 x hx, fun x hx => t4 x hx,
        fun x hx => by rw [t2]; exact hx, rfl, t1⟩
  | some pid =>
    dsimp only
    by_cases hit : cfg.isTrack = true
    · rw [if_pos hit]
      dsimp only [dbCommit]
      exact ⟨hsk, fun x hx => t3 x hx, fun x hx => t4 x hx,
        fun x hx => List.mem_append.mpr (Or.inl (by rw [t2]; exact hx)), rfl, t1⟩
    · rw [if_neg hit]
      dsimp only [dbCommit]
      exact ⟨hsk, fun x hx => t3 x hx, fun x hx => t4 x hx,
        fun x hx => List.mem_append.mpr (Or.inl (by rw [t2]; exact hx)), rfl, t1⟩

theorem tagSteps_globalPost (cfg : RunCfg) (S : PState) (tid g : Nat)
    (hG : cfg.globalTagId = some g) (hV : cfg.globalTagValid = true) :
    ∃ a, (tid, g, a) ∈ (tagSteps cfg S tid).pending.globalSongTags := by
  unfold tagSteps
  rw [hG]
  dsimp only
  exact (applyGlobalTagToTrack_step cfg.globalTagValid _ cfg.userId tid g).2.2.2.2.2 hV

theorem processFile_dup_facts (cfg : RunCfg) (pl : Option Nat) (S : PState)
    (f : FileInfo) (t : TrackRow)
    (hm : f.metadataOk = true) (hf : f.failAt ≠ FailPoint.exnEarly)
    (hd : findTrackByHash S.pending f.hash = some t) :
    ((f.title, t.id) ∈ (processFile cfg pl S f).skipped) ∧
    (∀ x, x ∈ S.skipped → x ∈ (processFile cfg pl S f).skipped) ∧
    (∀ x, x ∈ S.pending.songTags → x ∈ (processFile cfg pl S f).pending.songTags) ∧
    (∀ x, x ∈ S.pending.globalSongTags →
      x ∈ (processFile cfg pl S f).pending.globalSongTags) ∧
    (∀ x, x ∈ S.pending.playlistSongs →
      x ∈ (processFile cfg pl S f).pending.playlistSongs) ∧
    ((processFile cfg pl S f).pending.tracks = S.pending.tracks) ∧
    (((processFile cfg pl S f).committed = S.committed ∧
      (processFile cfg pl S f).pending.songTags = S.pending.songTags ∧
      (processFile cfg pl S f).pending.globalSongTags = S.pending.globalSongTags) ∨
     ((processFile cfg pl S f).committed.songTags =
        (processFile cfg pl S f).pending.songTags ∧
      (processFile cfg pl S f).committed.globalSongTags =
        (processFile cfg pl S f).pending.globalSongTags ∧
      (∀ x, x ∈ S.pending.playlistSongs →
        x ∈ (processFile cfg pl S f).committed.playlistSongs) ∧
      (processFile cfg pl S f).committed.tracks = S.pending.tracks)) ∧
    (∀ g, cfg.tagId = some g → cfg.tagValid = true →
      (cfg.userId, t.id, g) ∈ (processFile cfg pl S f).pending.songTags) ∧
    (∀ g, cfg.globalTagId = some g → cfg.globalTagValid = true →
      ∃ a, (t.id, g, a) ∈ (processFile cfg pl S f).pending.globalSongTags) ∧
    (∀ pid, pl = some pid → ∃ p a,
      (⟨pid, t.id, p, a⟩ : PlaylistSongRow) ∈
        (processFile cfg pl S f).pending.playlistSongs) := by
  rw [processFile_dup_eq cfg pl S f t hm hf hd]
  dsimp only
  obtain ⟨t1, t2, t3, t4, t5, t6⟩ := tagSteps_step cfg
    { S with skipped := S.skipped ++ [(f.title, t.id)] } t.id
  have hsk := (tagSteps_fields cfg
    { S with skipped := S.skipped ++ [(f.title, t.id)] } t.id).1
  cases pl with
  | none =>
    dsimp only
    refine ⟨?_, ?_, ?_, ?_, ?_, t1, ?_, ?_, ?_, ?_⟩
    · rw [hsk]
      exact List.mem_append.mpr (Or.inr (List.mem_singleton.mpr rfl))
    · intro x hx
      rw [hsk]
      exact List.mem_append.mpr (Or.inl hx)
    · exact fun x hx => t3 x hx
    · exact fun x hx => t4 x hx
    · intro x hx
      rw [t2]
      exact hx
    · rcases t5 with h5 | h5
      · rw [h5]
        exact Or.inl ⟨rfl, rfl, rfl⟩
      · refine Or.inr ⟨h5 ▸ rfl, h5 ▸ rfl, ?_, ?_⟩
        · intro x hx
          rw [h5, t2]
          exact hx
        · rw [h5, t1]
    · exact fun g hT hV => t6 g hT hV
    · exact fun g hG hV => tagSteps_globalPost cfg _ t.id g hG hV
    · intro pid hpid
      cases hpid
  | some pid =>
    dsimp only
    refine ⟨?_, ?_, ?_, ?_, ?_, t1, ?_, ?_, ?_, ?_⟩
    · rw [hsk]
      exact List.mem_append.mpr (Or.inr (List.mem_singleton.mpr rfl))
    · intro x hx
      rw [hsk]
      exact List.mem_append.mpr (Or.inl hx)
    · exact fun x hx => t3 x hx
    · exact fun x hx => t4 x hx
    · intro x hx
      refine List.mem_append.mpr (Or.inl ?_)
      rw [t2]
      exact hx
    · rcases t5 with h5 | h5
      · rw [h5]
        exact Or.inl ⟨rfl, rfl, rfl⟩
      · refine Or.inr ⟨h5 ▸ rfl, h5 ▸ rfl, ?_, ?_⟩
        · intro x hx
          rw [h5, t2]
          exact hx
        · rw [h5, t1]
    · exact fun g hT hV => t6 g hT hV
    · exact fun g hG hV => tagSteps_globalPost cfg _ t.id g hG hV
    · intro pid2 hpid
      injection hpid with hp2
      subst hp2
      exact ⟨(tagSteps cfg { S with skipped := S.skipped ++ [(f.title, t.id)] } t.id).pos,
        cfg.userId, List.mem_append.mpr (Or.inr (List.mem_singleton.mpr rfl))⟩

theorem processFile_step (cfg : RunCfg) (pl : Option Nat) (S : PState) (f : FileInfo) :
    (∀ x, x ∈ S.skipped → x ∈ (processFile cfg pl S f).skipped) ∧
    (∀ x, x ∈ S.pending.songTags → x ∈ S.committed.songTags →
      x ∈ (processFile cfg pl S f).pending.songTags ∧
      x ∈ (processFile cfg pl S f).committed.songTags) ∧
    (∀ x, x ∈ S.pending.globalSongTags → x ∈ S.committed.globalSongTags →
      x ∈ (processFile cfg pl S f).pending.globalSongTags ∧
      x ∈ (processFile cfg pl S f).committed.globalSongTags) ∧
    (∀ x, x ∈ S.pending.playlistSongs → x ∈ S.committed.playlistSongs →
      x ∈ (processFile cfg pl S f).pending.playlistSongs ∧
      x ∈ (processFile cfg pl S f).committed.playlistSongs) ∧
    (f.failAt = FailPoint.none → ∀ x, x ∈ S.pending.playlistSongs →
      x ∈ (processFile cfg pl S f).pending.playlistSongs) ∧
    ((S.pending.songTags = S.committed.songTags ∧
      S.pending.globalSongTags = S.committed.globalSongTags) →
      ((processFile cfg pl S f).pending.songTags =
        (processFile cfg pl S f).committed.songTags ∧
       (processFile cfg pl S f).pending.globalSongTags =
        (processFile cfg pl S f).committed.globalSongTags)) ∧
    (∀ hsh F0, F0 ≠ [] →
      S.pending.tracks.filter (fun tr => tr.songHash == hsh) = F0 →
      S.committed.tracks.filter (fun tr => tr.songHash == hsh) = F0 →
      (processFile cfg pl S f).pending.tracks.filter (fun tr => tr.songHash == hsh) = F0 ∧
      (processFile cfg pl S f).committed.tracks.filter (fun tr => tr.songHash == hsh) = F0) ∧
    (∀ tr, (tr ∈ (processFile cfg pl S f).pending.tracks ∨
        tr ∈ (processFile cfg pl S f).committed.tracks) →
      tr ∈ S.pending.tracks ∨ tr ∈ S.committed.tracks ∨
      tr.audioPath = musicDir ++ finalFilename f.hash f.title) := by
  by_cases hm : f.metadataOk = true
  · by_cases hfe : f.failAt = FailPoint.exnEarly
    · rw [processFile_earlyFail cfg pl S f hm hfe]
      unfold dbRollback
      refine ⟨fun x hx => hx, fun x _ hc => ⟨hc, hc⟩, fun x _ hc => ⟨hc, hc⟩,
        fun x _ hc => ⟨hc, hc⟩, ?_, fun _ => ⟨rfl, rfl⟩,
        fun hsh F0 _ _ hc => ⟨hc, hc⟩,
        fun tr htr => Or.inr (Or.inl (htr.elim id id))⟩
      intro h5
      exact absurd (h5.symm.trans hfe) (by decide)
    · cases hd : findTrackByHash S.pending f.hash with
      | some t =>
        obtain ⟨d1, d2, d3, d4, d5, d6, d7, d8, d9, d10⟩ :=
          processFile_dup_facts cfg pl S f t hm hfe hd
        refine ⟨d2, ?_, ?_, ?_, fun _ => d5, ?_, ?_, ?_⟩
        · intro x hp hc
          refine ⟨d3 x hp, ?_⟩
          rcases d7 with ⟨he, _, _⟩ | ⟨hs, _, _, _⟩
          · rw [he]
            exact hc
          · rw [hs]
            exact d3 x hp
        · intro x hp hc
          refine ⟨d4 x hp, ?_⟩
          rcases d7 with ⟨he, _, _⟩ | ⟨_, hg, _, _⟩
          · rw [he]
            exact hc
          · rw [hg]
            exact d4 x hp
        · intro x hp hc
          refine ⟨d5 x hp, ?_⟩
          rcases d7 with ⟨he, _, _⟩ | ⟨_, _, hpk, _⟩
          · rw [he]
            exact hc
          · exact hpk x hp
        · intro hsync
          rcases d7 with ⟨he, hps, hpg⟩ | ⟨hs, hg, _, _⟩
          · rw [hps, he, hpg]
            exact hsync
          · exact ⟨hs.symm, hg.symm⟩
        · intro hsh F0 hne hp hc
          refine ⟨by rw [d6]; exact hp, ?_⟩
          rcases d7 with ⟨he, _, _⟩ | ⟨_, _, _, ht⟩
          · rw [he]
            exact hc
          · rw [ht]
            exact hp
        · intro tr htr
          rcases htr with htr | htr
          · rw [d6] at htr
            exact Or.inl htr
          · rcases d7 with ⟨he, _, _⟩ | ⟨_, _, _, ht⟩
            · rw [he] at htr
              exact Or.inr (Or.inl htr)
            · rw [ht] at htr
              exact Or.inl htr
      | none =>
        by_cases hq : cfg.quotaMb < S.pending.storageUsed + f.sizeMb
        · rw [processFile_quotaSkip cfg pl S f hm hfe hd hq]
          exact ⟨fun x hx => hx, fun x hp hc => ⟨hp, hc⟩, fun x hp hc => ⟨hp, hc⟩,
            fun x hp hc => ⟨hp, hc⟩, fun _ x hx => hx, fun h => h,
            fun hsh F0 _ hp hc => ⟨hp, hc⟩,
            fun tr htr => htr.elim Or.inl (fun h => Or.inr (Or.inl h))⟩
        · by_cases hfp : f.failAt = FailPoint.exnPersist
          · rw [processFile_persistFail cfg pl S f hm hfp hd hq]
            refine ⟨fun x hx => hx, fun x _ hc => ⟨hc, hc⟩, fun x _ hc => ⟨hc, hc⟩,
              fun x _ hc => ⟨hc, hc⟩, ?_, fun _ => ⟨rfl, rfl⟩,
              fun hsh F0 _ _ hc => ⟨hc, hc⟩,
              fun tr htr => Or.inr (Or.inl (htr.elim id id))⟩
            intro h5
            exact absurd (h5.symm.trans hfp) (by decide)
          · obtain ⟨s1, s2, s3, s4, s5, s6⟩ :=
              processFile_success_facts cfg pl S f hm hfe hfp hd hq
            have htrkne : ∀ hsh F0, F0 ≠ [] →
                S.pending.tracks.filter (fun tr => tr.songHash == hsh) = F0 →
                (f.hash == hsh) = false := by
              intro hsh F0 hne hp
              by_cases hfh : f.hash = hsh
              · exfalso
                obtain ⟨tr0, htr0⟩ := List.exists_mem_of_ne_nil F0 hne
                rw [← hp] at htr0
                obtain ⟨htr0m, htr0p⟩ := List.mem_filter.mp htr0
                have hnone := List.find?_eq_none.mp hd tr0 htr0m
                rw [hfh] at hnone
                exact hnone htr0p
              · exact beq_eq_false_iff_ne.mpr hfh
            refine ⟨?_, ?_, ?_, ?_, fun _ => s4, ?_, ?_, ?_⟩
            · intro x hx
              rw [s1]
              exact hx
            · intro x hp _
              exact ⟨s2 x hp, by rw [s5]; exact s2 x hp⟩
            · intro x hp _
              exact ⟨s3 x hp, by rw [s5]; exact s3 x hp⟩
            · intro x hp _
              exact ⟨s4 x hp, by rw [s5]; exact s4 x hp⟩
            · intro _
              exact ⟨by rw [s5], by rw [s5]⟩
            · intro hsh F0 hne hp hc
              have hfilter : (processFile cfg pl S f).pending.tracks.filter
                  (fun tr => tr.songHash == hsh) = F0 := by
                rw [s6, List.filter_append]
                have : (List.filter (fun tr : TrackRow => tr.songHash == hsh)
                    [(⟨S.nextTrackId, f.hash, f.title,
                      musicDir ++ finalFilename f.hash f.title, f.sizeMb,
                      cfg.userId⟩ : TrackRow)])
                    = [] := by
                  simp [List.filter, htrkne hsh F0 hne hp]
                rw [this, hp, List.append_nil]
              exact ⟨hfilter, by rw [s5]; exact hfilter⟩
            · intro tr htr
              have htr2 : tr ∈ (processFile cfg pl S f).pending.tracks := by
                rcases htr with h | h
                · exact h
                · rw [s5] at h
                  exact h
              rw [s6] at htr2
              rcases List.mem_append.mp htr2 with h | h
              · exact Or.inl h
              · have : tr = ⟨S.nextTrackId, f.hash, f.title,
                    musicDir ++ finalFilename f.hash f.title, f.sizeMb, cfg.userId⟩ :=
                  List.mem_singleton.mp h
                exact Or.inr (Or.inr (by rw [this]))
  · have hm2 : f.metadataOk = false := by
      revert hm
      cases f.metadataOk <;> simp
    rw [processFile_metadataSkip cfg pl S f hm2]
    exact ⟨fun x hx => hx, fun x hp hc => ⟨hp, hc⟩, fun x hp hc => ⟨hp, hc⟩,
      fun x hp hc => ⟨hp, hc⟩, fun _ x hx => hx, fun h => h,
      fun hsh F0 _ hp hc => ⟨hp, hc⟩,
      fun tr htr => htr.elim Or.inl (fun h => Or.inr (Or.inl h))⟩

theorem foldl_skipped_mono (cfg : RunCfg) (pl : Option Nat) (files : List FileInfo)
    (S : PState) (x : String × Nat) (hx : x ∈ S.skipped) :
    x ∈ (files.foldl (processFile cfg pl) S).skipped := by
  induction files generalizing S with
  | nil => exact hx
  | cons f rest ih =>
    exact ih (processFile cfg pl S f) ((processFile_step cfg pl S f).1 x hx)

theorem foldl_keep_songTag (cfg : RunCfg) (pl : Option Nat) (files : List FileInfo)
    (S : PState) (x : Nat × Nat × Nat)
    (hp : x ∈ S.pending.songTags) (hc : x ∈ S.committed.songTags) :
    x ∈ (files.foldl (processFile cfg pl) S).pending.songTags ∧
    x ∈ (files.foldl (processFile cfg pl) S).committed.songTags := by
  induction files generalizing S with
  | nil => exact ⟨hp, hc⟩
  | cons f rest ih =>
    obtain ⟨h1, h2⟩ := (processFile_step cfg pl S f).2.1 x hp hc
    exact ih (processFile cfg pl S f) h1 h2

theorem foldl_keep_globalTag (cfg : RunCfg) (pl : Option Nat) (files : List FileInfo)
    (S : PState) (x : Nat × Nat × Nat)
    (hp : x ∈ S.pending.globalSongTags) (hc : x ∈ S.committed.globalSongTags) :
    x ∈ (files.foldl (processFile cfg pl) S).pending.globalSongTags ∧
    x ∈ (files.foldl (processFile cfg pl) S).committed.globalSongTags := by
  induction files generalizing S with
  | nil => exact ⟨hp, hc⟩
  | cons f rest ih =>
    obtain ⟨h1, h2⟩ := (processFile_step cfg pl S f).2.2.1 x hp hc
    exact ih (processFile cfg pl S f) h1 h2

theorem foldl_sync (cfg : RunCfg) (pl : Option Nat) (files : List FileInfo)
    (S : PState)
    (h : S.pending.songTags = S.committed.songTags ∧
      S.pending.globalSongTags = S.committed.globalSongTags) :
    (files.foldl (processFile cfg pl) S).pending.songTags =
      (files.foldl (processFile cfg pl) S).committed.songTags ∧
    (files.foldl (processFile cfg pl) S).pending.globalSongTags =
      (files.foldl (processFile cfg pl) S).committed.globalSongTags := by
  induction files generalizing S with
  | nil => exact h
  | cons f rest ih =>
    exact ih (processFile cfg pl S f) ((processFile_step cfg pl S f).2.2.2.2.2.1 h)

theorem foldl_hstable (cfg : RunCfg) (pl : Option Nat) (files : List FileInfo)
    (S : PState) (hsh : String) (F0 : List TrackRow) (hne : F0 ≠ [])
    (hp : S.pending.tracks.filter (fun tr => tr.songHash == hsh) = F0)
    (hc : S.committed.tracks.filter (fun tr => tr.songHash == hsh) = F0) :
    (files.foldl (processFile cfg pl) S).pending.tracks.filter
      (fun tr => tr.songHash == hsh) = F0 ∧
    (files.foldl (processFile cfg pl) S).committed.tracks.filter
      (fun tr => tr.songHash == hsh) = F0 := by
  induction files generalizing S with
  | nil => exact ⟨hp, hc⟩
  | cons f rest ih =>
    obtain ⟨h1, h2⟩ := (processFile_step cfg pl S f).2.2.2.2.2.2.1 hsh F0 hne hp hc
    exact ih (processFile cfg pl S f) h1 h2

theorem foldl_origin (cfg : RunCfg) (pl : Option Nat) (files : List FileInfo)
    (S : PState) (tr : TrackRow)
    (htr : tr ∈ (files.foldl (processFile cfg pl) S).pending.tracks ∨
      tr ∈ (files.foldl (processFile cfg pl) S).committed.tracks) :
    tr ∈ S.pending.tracks ∨ tr ∈ S.committed.tracks ∨
    ∃ f, f ∈ files ∧ tr.audioPath = musicDir ++ finalFilename f.hash f.title := by
  induction files generalizing S with
  | nil =>
    rcases htr with h | h
    · exact Or.inl h
    · exact Or.inr (Or.inl h)
  | cons f rest ih =>
    rcases ih (processFile cfg pl S f) htr with h | h | ⟨g, hg1, hg2⟩
    · rcases (processFile_step cfg pl S f).2.2.2.2.2.2.2 tr (Or.inl h) with h2 | h2 | h2
      · exact Or.inl h2
      · exact Or.inr (Or.inl h2)
      · exact Or.inr (Or.inr ⟨f, List.mem_cons_self _ _, h2⟩)
    · rcases (processFile_step cfg pl S f).2.2.2.2.2.2.2 tr (Or.inr h) with h2 | h2 | h2
      · exact Or.inl h2
      · exact Or.inr (Or.inl h2)
      · exact Or.inr (Or.inr ⟨f, List.mem_cons_self _ _, h2⟩)
    · exact Or.inr (Or.inr ⟨g, List.mem_cons_of_mem _ hg1, hg2⟩)

theorem foldl_keep_plrow (cfg : RunCfg) (pl : Option Nat) (files : List FileInfo)
    (S : PState) (x : PlaylistSongRow)
    (hx : x ∈ S.pending.playlistSongs)
    (hok : ∀ g, g ∈ files → g.failAt = FailPoint.none) :
    x ∈ (files.foldl (processFile cfg pl) S).pending.playlistSongs := by
  induction files generalizing S with
  | nil => exact hx
  | cons f rest ih =>
    have hf : f.failAt = FailPoint.none := hok f (List.mem_cons_self _ _)
    exact ih (processFile cfg pl S f)
      ((processFile_step cfg pl S f).2.2.2.2.1 hf x hx)
      (fun g hg => hok g (List.mem_cons_of_mem _ hg))

theorem processFile_findTrack (cfg : RunCfg) (pl : Option Nat) (S : PState)
    (hsh : String) (T0 : TrackRow) (F0 : List TrackRow) (hne : F0 ≠ [])
    (hhead : F0.head? = some T0)
    (hp : S.pending.tracks.filter (fun tr => tr.songHash == hsh) = F0) :
    findTrackByHash S.pending hsh = some T0 := by
  unfold findTrackByHash
  rw [find?_eq_head_filter, hp, hhead]

theorem runSpotdl_ok (t : Bool) (e : Nat) (fs : List FileInfo)
    (ht : t = false) (he : e = 0) (hf : fs ≠ []) :
    runSpotdl t e fs = Except.ok fs := by
  unfold runSpotdl
  rw [ht, he]
  simp [hf]

theorem spotifyRun_tempFiles (cfg : RunCfg) : (spotifyRun cfg).tempFiles = [] := by
  unfold spotifyRun
  by_cases h1 : cfg.quotaMb ≤ cfg.initDb.storageUsed
  · rw [if_pos h1]
  · rw [if_neg h1]
    cases hr : runSpotdl cfg.timedOut cfg.exitCode cfg.files with
    | error e => rfl
    | ok files => rfl

theorem spotifyRun_error_iff (cfg : RunCfg) :
    exceptIsError (spotifyRun cfg).result = true ↔
      (cfg.quotaMb ≤ cfg.initDb.storageUsed ∨ cfg.timedOut = true ∨
       cfg.exitCode ≠ 0 ∨ cfg.files = []) := by
  unfold spotifyRun
  by_cases h1 : cfg.quotaMb ≤ cfg.initDb.storageUsed
  · rw [if_pos h1]
    simp [exceptIsError, h1]
  · rw [if_neg h1]
    unfold runSpotdl
    by_cases h2 : cfg.timedOut = true
    · rw [if_pos h2]
      simp [exceptIsError, h1, h2]
    · rw [if_neg h2]
      by_cases h3 : cfg.exitCode ≠ 0
      · rw [if_pos h3]
        simp [exceptIsError, h1, h2, h3]
      · rw [if_neg h3]
        by_cases h4 : cfg.files = []
        · rw [if_pos h4]
          simp [exceptIsError, h1, h2, h3, h4]
        · rw [if_neg h4]
          simp [exceptIsError, h1, h2, h3, h4]

theorem spotifyRun_quotaAtStart (cfg : RunCfg)
    (h : cfg.quotaMb ≤ cfg.initDb.storageUsed) :
    spotifyRun cfg = ⟨Except.error DlError.quotaAtStart, cfg.initDb, [], []⟩ := by
  unfold spotifyRun
  rw [if_pos h]

theorem spotifyRun_ok_eq (cfg : RunCfg)
    (hq : cfg.initDb.storageUsed < cfg.quotaMb) (ht : cfg.timedOut = false)
    (he : cfg.exitCode = 0) (hf : cfg.files ≠ []) :
    spotifyRun cfg =
      (let S0 := initPState cfg cfg.files
       let pl : Option Nat := if cfg.isPlaylist then some cfg.playlistId else none
       let S1 :=
         if cfg.isPlaylist then
           dbCommit { S0 with pending :=
             { S0.pending with playlists := S0.pending.playlists ++ [cfg.playlistId] } }
         else S0
       let S2 := cfg.files.foldl (processFile cfg pl) S1
       let S3 := dbCommit S2
       ⟨Except.ok
         { processed := S3.processedIds.length,
           skippedCount := S3.skipped.length,
           trackIds := S3.processedIds,
           skippedList := S3.skipped,
           playlist := pl.map (fun pid => (pid, S3.processedIds.length + S3.skipped.length)),
           autoLiked := cfg.isTrack },
         S3.committed, [], S3.musicFiles⟩) := by
  unfold spotifyRun
  rw [if_neg (by omega : ¬ cfg.quotaMb ≤ cfg.initDb.storageUsed),
    runSpotdl_ok cfg.timedOut cfg.exitCode cfg.files ht he hf]

theorem C2_core (cfg : RunCfg) (pl : Option Nat) (S1 : PState) (h : String)
    (T : TrackRow) (pre post : List FileInfo) (dupF : FileInfo)
    (hmeta : dupF.metadataOk = true) (hfail : dupF.failAt = FailPoint.none)
    (hhash : dupF.hash = h)
    (hfind : cfg.initDb.tracks.find? (fun tr => tr.songHash == h) = some T)
    (hS1p : S1.pending.tracks = cfg.initDb.tracks)
    (hS1c : S1.committed.tracks = cfg.initDb.tracks)
    (hsyncS : S1.pending.songTags = S1.committed.songTags)
    (hsyncG : S1.pending.globalSongTags = S1.committed.globalSongTags) :
    (((pre ++ dupF :: post).foldl (processFile cfg pl) S1).pending.tracks.filter
      (fun tr => tr.songHash == h) =
      cfg.initDb.tracks.filter (fun tr => tr.songHash == h)) ∧
    ((dupF.title, T.id) ∈ ((pre ++ dupF :: post).foldl (processFile cfg pl) S1).skipped) ∧
    (∀ g, cfg.tagId = some g → cfg.tagValid = true →
      (cfg.userId, T.id, g) ∈
        ((pre ++ dupF :: post).foldl (processFile cfg pl) S1).pending.songTags) ∧
    (∀ g, cfg.globalTagId = some g → cfg.globalTagValid = true →
      ∃ a, (T.id, g, a) ∈
        ((pre ++ dupF :: post).foldl (processFile cfg pl) S1).pending.globalSongTags) ∧
    (∀ pid, pl = some pid → (∀ g, g ∈ post → g.failAt = FailPoint.none) → ∃ p a,
      (⟨pid, T.id, p, a⟩ : PlaylistSongRow) ∈
        ((pre ++ dupF :: post).foldl (processFile cfg pl) S1).pending.playlistSongs) := by
  have hhead : (cfg.initDb.tracks.filter (fun tr => tr.songHash == h)).head? = some T := by
    rw [← find?_eq_head_filter]
    exact hfind
  have hne : cfg.initDb.tracks.filter (fun tr => tr.songHash == h) ≠ [] := by
    intro h0
    rw [h0] at hhead
    cases hhead
  have hfail' : dupF.failAt ≠ FailPoint.exnEarly := by
    rw [hfail]
    intro hc
    cases hc
  rw [List.foldl_append, List.foldl_cons]
  obtain ⟨hsp, hsc⟩ := foldl_hstable cfg pl pre S1 h _ hne
    (by rw [hS1p]) (by rw [hS1c])
  have hfindpre : findTrackByHash (pre.foldl (processFile cfg pl) S1).pending dupF.hash
      = some T := by
    rw [hhash]
    exact processFile_findTrack cfg pl _ h T _ hne hhead hsp
  obtain ⟨d1, d2, d3, d4, d5, d6, d7, d8, d9, d10⟩ :=
    processFile_dup_facts cfg pl (pre.foldl (processFile cfg pl) S1) dupF T
      hmeta hfail' hfindpre
  have hsyncpre := foldl_sync cfg pl pre S1 ⟨hsyncS, hsyncG⟩
  obtain ⟨hdp, hdc⟩ := (processFile_step cfg pl (pre.foldl (processFile cfg pl) S1) dupF
    ).2.2.2.2.2.2.1 h _ hne hsp hsc
  refine ⟨?_, ?_, ?_, ?_, ?_⟩
  · exact (foldl_hstable cfg pl post _ h _ hne hdp hdc).1
  · exact foldl_skipped_mono cfg pl post _ _ d1
  · intro g hg hv
    have hpend := d8 g hg hv
    have hcomm : (cfg.userId, T.id, g) ∈
        (processFile cfg pl (pre.foldl (processFile cfg pl) S1) dupF).committed.songTags := by
      rcases d7 with ⟨he2, hps, _⟩ | ⟨hs, _, _, _⟩
      · rw [he2]
        rw [hps] at hpend
        rw [← hsyncpre.1]
        exact hpend
      · rw [hs]
        exact hpend
    exact (foldl_keep_songTag cfg pl post _ _ hpend hcomm).1
  · intro g hg hv
    obtain ⟨a, hpend⟩ := d9 g hg hv
    have hcomm : (T.id, g, a) ∈
        (processFile cfg pl (pre.foldl (processFile cfg pl) S1) dupF
          ).committed.globalSongTags := by
      rcases d7 with ⟨he2, _, hpg⟩ | ⟨_, hg2, _, _⟩
      · rw [he2]
        rw [hpg] at hpend
        rw [← hsyncpre.2]
        exact hpend
      · rw [hg2]
        exact hpend
    exact ⟨a, (foldl_keep_globalTag cfg pl post _ _ hpend hcomm).1⟩
  · intro pid hpid hpost
    obtain ⟨p, a, hrow⟩ := d10 pid hpid
    exact ⟨p, a, foldl_keep_plrow cfg pl post _ _ hrow hpost⟩

/-- C8: the downloader adapter fails — failing the whole job — exactly when
the wall-clock timeout elapses, the subprocess exits non-zero, or zero audio
files are produced; and the scratch directory is empty at the end of every
run, success or failure. -/
theorem C8_adapter_contract :
    (∀ (timedOut : Bool) (exitCode : Nat) (files : List FileInfo),
      exceptIsError (runSpotdl timedOut exitCode files) = true ↔
        (timedOut = true ∨ exitCode ≠ 0 ∨ files = [])) ∧
    (∀ cfg : RunCfg, (spotifyRun cfg).tempFiles = []) := by
  constructor
  · intro timedOut exitCode files
    unfold runSpotdl
    by_cases h2 : timedOut = true
    · rw [if_pos h2]
      simp [exceptIsError, h2]
    · rw [if_neg h2]
      by_cases h3 : exitCode ≠ 0
      · rw [if_pos h3]
        simp [exceptIsError, h2, h3]
      · rw [if_neg h3]
        by_cases h4 : files = []
        · rw [if_pos h4]
          simp [exceptIsError, h2, h3, h4]
        · rw [if_neg h4]
          simp [exceptIsError, h2, h3, h4]
  · exact spotifyRun_tempFiles

/-- C9: every Track row a run adds to the database has audio path
`uploads/music/` ++ first-12-hash-characters ++ `_` ++ sanitized title ++
`.mp3`, the sanitization stripping the filesystem-illegal characters and
trimming leading and trailing dots and spaces. -/
theorem C9_filename_form (cfg : RunCfg) (tr : TrackRow)
    (htr : tr ∈ (spotifyRun cfg).db.tracks)
    (hnew : tr ∉ cfg.initDb.tracks) :
    ∃ f, f ∈ cfg.files ∧
      tr.audioPath =
        musicDir ++ (strTake 12 f.hash ++ "_" ++ sanitizeTitle f.title ++ ".mp3") := by
  by_cases h1 : cfg.quotaMb ≤ cfg.initDb.storageUsed
  · rw [spotifyRun_quotaAtStart cfg h1] at htr
    exact absurd htr hnew
  · cases hr : runSpotdl cfg.timedOut cfg.exitCode cfg.files with
    | error e =>
      have hdb : (spotifyRun cfg).db = cfg.initDb := by
        unfold spotifyRun
        rw [if_neg h1, hr]
      rw [hdb] at htr
      exact absurd htr hnew
    | ok fs =>
      unfold runSpotdl at hr
      split_ifs at hr with h2 h3 h4
      have ht : cfg.timedOut = false := by
        revert h2
        cases cfg.timedOut <;> simp
      have he : cfg.exitCode = 0 := not_not.mp h3
      rw [spotifyRun_ok_eq cfg (by omega) ht he h4] at htr
      rcases foldl_origin cfg _ cfg.files _ tr (Or.inl htr) with h | h | ⟨f, hf1, hf2⟩
      · have hcon : tr ∈ cfg.initDb.tracks := by
          revert h
          split <;> exact fun h => h
        exact absurd hcon hnew
      · have hcon : tr ∈ cfg.initDb.tracks := by
          revert h
          split <;> exact fun h => h
        exact absurd hcon hnew
      · exact ⟨f, hf1, hf2⟩

/-- Evaluation of `C9_filename_form` on the concrete run `exCfgOk`: the one
created row carries the content-addressed, sanitized filename. -/
theorem C9_filename_form_witness :
    ∃ f, f ∈ exCfgOk.files ∧
      (⟨1, "abcdefghijklmnop", "My <Song>. ",
        "uploads/music/abcdefghijkl_My Song.mp3", 5, 3⟩ : TrackRow).audioPath =
        musicDir ++ (strTake 12 f.hash ++ "_" ++ sanitizeTitle f.title ++ ".mp3") :=
  C9_filename_form exCfgOk
    ⟨1, "abcdefghijklmnop", "My <Song>. ",
      "uploads/music/abcdefghijkl_My Song.mp3", 5, 3⟩
    (by decide) (by decide)

/-- C5 counterexample: in `exCfgQuotaSilent` the only file would push usage
from 99 to 104 of a 100 MB quota; it is skipped, but the run's result records
nothing about it (no skip entry, zero counts), and in `exCfgQuotaStart`,
where usage already equals the quota, the whole job fails up front on the
storage-quota condition. -/
theorem C5_quota_counterexample :
    (spotifyRun exCfgQuotaSilent).result =
      Except.ok ⟨0, 0, [], [], none, true⟩ ∧
    (spotifyRun exCfgQuotaSilent).db = exCfgQuotaSilent.initDb ∧
    (spotifyRun exCfgQuotaStart).result = Except.error DlError.quotaAtStart := by
  decide

/-- C5 (amended): a file whose projected size would push usage over quota is
skipped with no Track persisted and no ledger change — in fact with no state
change at all, so the skip is not recorded in the result — and the per-file
check never fails the job; but a job that starts with usage already at or
over the quota fails outright before downloading. -/
theorem C5_quota_amended :
    (∀ (cfg : RunCfg) (pl : Option Nat) (S : PState) (f : FileInfo),
      f.metadataOk = true → f.failAt ≠ FailPoint.exnEarly →
      findTrackByHash S.pending f.hash = none →
      cfg.quotaMb < S.pending.storageUsed + f.sizeMb →
      processFile cfg pl S f = S) ∧
    (∀ cfg : RunCfg, cfg.quotaMb ≤ cfg.initDb.storageUsed →
      spotifyRun cfg = ⟨Except.error DlError.quotaAtStart, cfg.initDb, [], []⟩) :=
  ⟨processFile_quotaSkip, spotifyRun_quotaAtStart⟩

/-- Evaluation of `C5_quota_amended` on concrete inputs. -/
theorem C5_quota_amended_witness :
    processFile exCfgQuotaSilent none exQuotaState exQuotaFile = exQuotaState ∧
    spotifyRun exCfgQuotaStart =
      ⟨Except.error DlError.quotaAtStart, exCfgQuotaStart.initDb, [], []⟩ :=
  ⟨C5_quota_amended.1 exCfgQuotaSilent none exQuotaState exQuotaFile
      (by decide) (by decide) (by decide) (by decide),
   C5_quota_amended.2 exCfgQuotaStart (by decide)⟩

/-- C6 counterexample: in `exCfgPersist` the only file fails at the
persistence step after being moved into the music directory; the rollback
removes the partial Track row but the moved file stays in `uploads/music/`,
and the run still ends ok. -/
theorem C6_rollback_counterexample :
    (spotifyRun exCfgPersist).musicFiles = ["uploads/music/x_a.mp3"] ∧
    (spotifyRun exCfgPersist).db.tracks = [] ∧
    exceptIsError (spotifyRun exCfgPersist).result = false := by
  decide

/-- C6 (amended): after the duplicate check, a persistence-step failure rolls
back that file's uncommitted database work (the partial Track row disappears)
but the file already moved into the music directory is not removed; the loop
moves on to the next file, and the run's result errors exactly on the
up-front quota raise or the acquisition failures, otherwise it is a
structured ok tally. -/
theorem C6_rollback_amended :
    (∀ (cfg : RunCfg) (pl : Option Nat) (S : PState) (f : FileInfo),
      f.metadataOk = true → f.failAt = FailPoint.exnPersist →
      findTrackByHash S.pending f.hash = none →
      ¬ cfg.quotaMb < S.pending.storageUsed + f.sizeMb →
      processFile cfg pl S f =
        { S with
          tempFiles := S.tempFiles.erase f,
          musicFiles := S.musicFiles ++ [musicDir ++ finalFilename f.hash f.title],
          pending := S.committed,
          nextTrackId := S.nextTrackId + 1 }) ∧
    (∀ cfg : RunCfg,
      exceptIsError (spotifyRun cfg).result = true ↔
        (cfg.quotaMb ≤ cfg.initDb.storageUsed ∨ cfg.timedOut = true ∨
         cfg.exitCode ≠ 0 ∨ cfg.files = [])) :=
  ⟨processFile_persistFail, spotifyRun_error_iff⟩

/-- Evaluation of `C6_rollback_amended` on concrete inputs. -/
theorem C6_rollback_amended_witness :
    processFile exCfgPersist none exPersistState exPersistFile =
      { exPersistState with
        tempFiles := exPersistState.tempFiles.erase exPersistFile,
        musicFiles := exPersistState.musicFiles ++
          [musicDir ++ finalFilename exPersistFile.hash exPersistFile.title],
        pending := exPersistState.committed,
        nextTrackId := exPersistState.nextTrackId + 1 } ∧
    (exceptIsError (spotifyRun exCfgQuotaStart).result = true ↔
      (exCfgQuotaStart.quotaMb ≤ exCfgQuotaStart.initDb.storageUsed ∨
       exCfgQuotaStart.timedOut = true ∨ exCfgQuotaStart.exitCode ≠ 0 ∨
       exCfgQuotaStart.files = [])) :=
  ⟨C6_rollback_amended.1 exCfgPersist none exPersistState exPersistFile
      (by decide) (by decide) (by decide) (by decide),
   C6_rollback_amended.2 exCfgQuotaStart⟩

/-- C2 counterexample: in `exCfgDedupLost` a duplicate file is skipped with a
reference to the existing track (id 1) and its playlist membership is added
to the pending session, but the next file's metadata failure triggers a
rollback that silently discards it: the final database has no playlist
membership at all, although the run reports the skip and ends ok. -/
theorem C2_dedup_counterexample :
    (spotifyRun exCfgDedupLost).db.playlistSongs = [] ∧
    (spotifyRun exCfgDedupLost).result =
      Except.ok ⟨0, 1, [], [("dup", 1)], some (50, 1), false⟩ := by
  decide

/-- C2 (amended): whenever the run succeeds and one of its files matches an
existing Track by hash — regardless of what happens to the files processed
after it — no second Track row with that hash is created (the rows with that
hash are exactly the preexisting ones), the file is recorded in the ok
result's skipped list with the existing track's id, requested valid tag and
global-tag associations reach the final database (they are committed on the
spot), and the scratch copy is gone at the end; the playlist membership
attached to the existing track survives into the final database provided no
later file of the run fails. -/
theorem C2_dedup (cfg : RunCfg) (h : String) (T : TrackRow)
    (pre post : List FileInfo) (dupF : FileInfo)
    (hq : cfg.initDb.storageUsed < cfg.quotaMb)
    (ht : cfg.timedOut = false) (he : cfg.exitCode = 0)
    (hsplit : cfg.files = pre ++ dupF :: post)
    (hmeta : dupF.metadataOk = true) (hfail : dupF.failAt = FailPoint.none)
    (hhash : dupF.hash = h)
    (hfind : cfg.initDb.tracks.find? (fun tr => tr.songHash == h) = some T) :
    ((spotifyRun cfg).db.tracks.filter (fun tr => tr.songHash == h) =
      cfg.initDb.tracks.filter (fun tr => tr.songHash == h)) ∧
    (∃ r, (spotifyRun cfg).result = Except.ok r ∧ (dupF.title, T.id) ∈ r.skippedList) ∧
    (∀ g, cfg.tagId = some g → cfg.tagValid = true →
      (cfg.userId, T.id, g) ∈ (spotifyRun cfg).db.songTags) ∧
    (∀ g, cfg.globalTagId = some g → cfg.globalTagValid = true →
      ∃ a, (T.id, g, a) ∈ (spotifyRun cfg).db.globalSongTags) ∧
    ((∀ g, g ∈ post → g.failAt = FailPoint.none) → cfg.isPlaylist = true →
      ∃ p a, (⟨cfg.playlistId, T.id, p, a⟩ : PlaylistSongRow) ∈
        (spotifyRun cfg).db.playlistSongs) ∧
    (spotifyRun cfg).tempFiles = [] := by
  have hf : cfg.files ≠ [] := by
    rw [hsplit]
    simp
  rw [spotifyRun_ok_eq cfg hq ht he hf]
  rw [hsplit]
  have hcore := C2_core cfg
    (if cfg.isPlaylist then some cfg.playlistId else none)
    (if cfg.isPlaylist then
      dbCommit { initPState cfg (pre ++ dupF :: post) with pending :=
        { (initPState cfg (pre ++ dupF :: post)).pending with playlists :=
          (initPState cfg (pre ++ dupF :: post)).pending.playlists ++
            [cfg.playlistId] } }
    else initPState cfg (pre ++ dupF :: post))
    h T pre post dupF hmeta hfail hhash hfind
    (by split <;> rfl) (by split <;> rfl) (by split <;> rfl) (by split <;> rfl)
  refine ⟨hcore.1, ⟨_, rfl, hcore.2.1⟩, hcore.2.2.1, hcore.2.2.2.1, ?_, rfl⟩
  intro hpost hpl
  obtain ⟨p, a, hrow⟩ := hcore.2.2.2.2 cfg.playlistId (by rw [if_pos hpl]) hpost
  exact ⟨p, a, hrow⟩

/-- Evaluation of `C2_dedup` on the concrete run `exCfgDedupMixed`, where
the file after the duplicate fails: the hash stays unique, the skip is
recorded against track 1, and the tag and global tag reach the final
database even though the later failure rolled the session back. -/
theorem C2_dedup_witness :
    ((spotifyRun exCfgDedupMixed).db.tracks.filter (fun tr => tr.songHash == "h") =
      exCfgDedupMixed.initDb.tracks.filter (fun tr => tr.songHash == "h")) ∧
    (∃ r, (spotifyRun exCfgDedupMixed).result = Except.ok r ∧
      ("dup", 1) ∈ r.skippedList) ∧
    (∀ g, exCfgDedupMixed.tagId = some g → exCfgDedupMixed.tagValid = true →
      (3, 1, g) ∈ (spotifyRun exCfgDedupMixed).db.songTags) ∧
    (∀ g, exCfgDedupMixed.globalTagId = some g →
      exCfgDedupMixed.globalTagValid = true →
      ∃ a, (1, g, a) ∈ (spotifyRun exCfgDedupMixed).db.globalSongTags) ∧
    ((∀ g, g ∈ [exBadFile] → g.failAt = FailPoint.none) →
      exCfgDedupMixed.isPlaylist = true → ∃ p a,
        (⟨50, 1, p, a⟩ : PlaylistSongRow) ∈
          (spotifyRun exCfgDedupMixed).db.playlistSongs) ∧
    (spotifyRun exCfgDedupMixed).tempFiles = [] :=
  C2_dedup exCfgDedupMixed "h" exDupTrack [] [exBadFile] exDupFile
    (by decide) (by decide) (by decide) rfl (by decide) (by decide) rfl
    (by decide)
